import Mathlib

set_option maxHeartbeats 1000000
set_option maxRecDepth 8192

/-! Verification of the BiteSpeed identity-reconciliation service.

This file shallowly embeds the contact store, the repository queries
(`contact.repository.ts`), the resolution pipeline (`ContactService`:
`identify`, `handleNoMatch`, `handleMatch`, `collectFullCluster`,
`resolvePrimary`, `refreshCluster`, `createSecondaryIfNeeded`,
`buildResponse`) and the HTTP boundary (`ContactController.identify`),
and proves the specified properties about them.

Modelling conventions:
* the Prisma store is a list of contacts plus an id counter and a clock;
  `createdAt` values are naturals handed out by the clock, and reachable
  stores keep the list strictly sorted by `createdAt`;
* JavaScript truthiness of the optional string inputs (`null`/`""` are
  falsy) is modelled by `truthy`; truthiness of an optional numeric id
  (`null`/`0` falsy) by `truthyId`;
* the JS `Map`/`Set` used by `collectFullCluster` are association lists
  with insert-or-overwrite semantics, and JS `Array.prototype.sort`
  (stable in ES2019+) is `List.insertionSort`;
* the `{ contact: ... }` wrapper of the HTTP payload is elided: the
  response structure holds the four payload fields directly.
-/

namespace BiteSpeed


inductive LinkPrecedence where
  | primary
  | secondary
deriving DecidableEq

structure Contact where
  id : Nat
  email : Option String
  phoneNumber : Option String
  linkedId : Option Nat
  linkPrecedence : LinkPrecedence
  createdAt : Nat
  deletedAt : Option Nat
deriving DecidableEq

structure Store where
  contacts : List Contact
  nextId : Nat
  now : Nat
deriving DecidableEq

/-- JS truthiness of an optional string: `null`/`undefined` and `""` are falsy. -/

def truthy : Option String → Bool
  | none => false
  | some s => s != ""

/-- JS truthiness of an optional numeric id: `null` and `0` are falsy. -/

def truthyId : Option Nat → Bool
  | none => false
  | some n => n != 0

/-- Comparison used by every `orderBy createdAt asc` and by the JS sorts. -/

def createdLE (a b : Contact) : Prop := a.createdAt ≤ b.createdAt

instance : DecidableRel createdLE := fun a b => Nat.decLe a.createdAt b.createdAt

instance : IsTotal Contact createdLE := ⟨fun a b => Nat.le_total a.createdAt b.createdAt⟩

instance : IsTrans Contact createdLE := ⟨fun _ _ _ h h' => Nat.le_trans h h'⟩

/-- Strict `createdAt` order; reachable stores are strictly sorted by it. -/

def createdLT (a b : Contact) : Prop := a.createdAt < b.createdAt

instance : DecidableRel createdLT := fun a b => Nat.decLt a.createdAt b.createdAt

def sortByCreated (l : List Contact) : List Contact := l.insertionSort createdLE

/-- ContactRepository.findMatchingContacts: OR-match on the truthy inputs,
excluding soft-deleted rows, ordered by `createdAt` ascending; with no
truthy input it returns `[]` without querying. -/

def findMatchingContacts (s : Store) (email phoneNumber : Option String) : List Contact :=
  if truthy email || truthy phoneNumber then
    sortByCreated (s.contacts.filter (fun c =>
      ((truthy email && c.email == email) || (truthy phoneNumber && c.phoneNumber == phoneNumber))
        && c.deletedAt == none))
  else []

/-- ContactRepository.findContactsByPrimaryId: non-deleted contacts whose
`linkedId` equals the given id, `createdAt` ascending. -/

def findContactsByPrimaryId (s : Store) (primaryId : Nat) : List Contact :=
  sortByCreated (s.contacts.filter (fun c =>
    c.linkedId == some primaryId && c.deletedAt == none))

/-- ContactRepository.findContactById (`findUnique` on the id). -/

def findContactById (s : Store) (id : Nat) : Option Contact :=
  s.contacts.find? (fun c => c.id == id)

structure CreateData where
  email : Option String := none
  phoneNumber : Option String := none
  linkedId : Option Nat := none
  linkPrecedence : LinkPrecedence

/-- ContactRepository.createContact: store assigns the id and `createdAt`. -/

def createContact (s : Store) (d : CreateData) : Contact × Store :=
  let c : Contact :=
    { id := s.nextId, email := d.email, phoneNumber := d.phoneNumber,
      linkedId := d.linkedId, linkPrecedence := d.linkPrecedence,
      createdAt := s.now, deletedAt := none }
  (c, { contacts := s.contacts ++ [c], nextId := s.nextId + 1, now := s.now + 1 })

/-- Partial update payload of ContactRepository.updateContact: only
`linkedId` and `linkPrecedence` are mutable. -/

structure UpdateData where
  linkedId : Option (Option Nat) := none
  linkPrecedence : Option LinkPrecedence := none

def applyUpdate (d : UpdateData) (c : Contact) : Contact :=
  { c with linkedId := d.linkedId.getD c.linkedId,
           linkPrecedence := d.linkPrecedence.getD c.linkPrecedence }

def updateContact (s : Store) (id : Nat) (d : UpdateData) : Store :=
  { s with contacts := s.contacts.map (fun c => if c.id == id then applyUpdate d c else c) }

def isPrimaryC (c : Contact) : Bool := c.linkPrecedence == LinkPrecedence.primary

/-- JS `Map.set`: overwrite in place when the key exists, else append. -/

def mapSet (m : List (Nat × Contact)) (k : Nat) (v : Contact) : List (Nat × Contact) :=
  if m.any (fun kv => kv.1 == k) then m.map (fun kv => if kv.1 == k then (k, v) else kv)
  else m ++ [(k, v)]

/-- JS `Set.add` on numbers, insertion ordered. -/

def setAdd (l : List Nat) (x : Nat) : List Nat := if x ∈ l then l else l ++ [x]

/-- The `primaryIds` set built by ContactService.collectFullCluster: each
matched contact contributes its own id when primary, else its truthy
`linkedId`. -/

def primaryIdsOf (matchingContacts : List Contact) : List Nat :=
  matchingContacts.foldl (fun ids c =>
    if isPrimaryC c then setAdd ids c.id
    else if truthyId c.linkedId then setAdd ids (c.linkedId.getD 0)
    else ids) []

/-- Body of the `for (const primaryId of primaryIds)` loop of
ContactService.collectFullCluster: fetch the primary when absent from the
map (skipping deleted rows), then fetch and insert all its secondaries. -/

def collectStep (s : Store) (m : List (Nat × Contact)) (primaryId : Nat) : List (Nat × Contact) :=
  let m1 :=
    if m.any (fun kv => kv.1 == primaryId) then m
    else
      match findContactById s primaryId with
      | some p => if p.deletedAt == none then mapSet m p.id p else m
      | none => m
  (findContactsByPrimaryId s primaryId).foldl (fun acc sec => mapSet acc sec.id sec) m1

/-- ContactService.collectFullCluster. -/

def collectFullCluster (s : Store) (matchingContacts : List Contact) : List Contact :=
  let contactMap := matchingContacts.foldl (fun m c => mapSet m c.id c) []
  let finalMap := (primaryIdsOf matchingContacts).foldl (collectStep s) contactMap
  sortByCreated (finalMap.map (fun kv => kv.2))

/-- One iteration of the demotion loop of ContactService.resolvePrimary:
demote a newer primary and re-point its current secondaries. -/

def demoteOne (s : Store) (oldestId : Nat) (np : Contact) : Store :=
  let s1 := updateContact s np.id
    { linkedId := some (some oldestId), linkPrecedence := some LinkPrecedence.secondary }
  (findContactsByPrimaryId s1 np.id).foldl
    (fun st sec => updateContact st sec.id { linkedId := some (some oldestId) }) s1

/-- ContactService.resolvePrimary: with at most one primary return it
(`primaries[0]` is `undefined`, i.e. `none`, on an empty list); otherwise
the `createdAt`-oldest wins and every other primary is demoted. -/

def resolvePrimary (s : Store) (contacts : List Contact) : Option Contact × Store :=
  let primaries := contacts.filter isPrimaryC
  if primaries.length ≤ 1 then (primaries.head?, s)
  else
    match sortByCreated primaries with
    | [] => (none, s)
    | oldest :: rest => (some oldest, rest.foldl (fun st np => demoteOne st oldest.id np) s)

/-- ContactService.refreshCluster. -/

def refreshCluster (s : Store) (primaryContact : Contact) : List Contact :=
  findContactsByPrimaryId s primaryContact.id

/-- The `comboExists` check of ContactService.createSecondaryIfNeeded: some
member matches the supplied email (or email falsy) and the supplied
phone (or phone falsy). -/

def comboExists (allContacts : List Contact) (email phoneNumber : Option String) : Bool :=
  allContacts.any (fun c =>
    (!truthy email || c.email == email) && (!truthy phoneNumber || c.phoneNumber == phoneNumber))

/-- ContactService.createSecondaryIfNeeded. -/

def createSecondaryIfNeeded (s : Store) (cluster : List Contact) (primaryContact : Contact)
    (email phoneNumber : Option String) : Store :=
  let allContacts := primaryContact :: cluster
  if comboExists allContacts email phoneNumber then s
  else
    let hasNewInfo :=
      (truthy email && !(allContacts.any (fun c => c.email == email))) ||
      (truthy phoneNumber && !(allContacts.any (fun c => c.phoneNumber == phoneNumber)))
    if hasNewInfo || (!(comboExists allContacts email phoneNumber)
        && (truthy email || truthy phoneNumber)) then
      (createContact s { email := email, phoneNumber := phoneNumber,
                         linkedId := some primaryContact.id,
                         linkPrecedence := LinkPrecedence.secondary }).2
    else s

structure IdentifyResponse where
  primaryContactId : Nat
  emails : List String
  phoneNumbers : List String
  secondaryContactIds : List Nat
deriving DecidableEq

/-- The `if (primary.email) emails.push(primary.email)` seeding of
ContactService.buildResponse. -/

def pushIfTruthy (l : List String) (x : Option String) : List String :=
  match x with
  | some v => if v != "" then l ++ [v] else l
  | none => l

/-- Body of the secondaries loop of ContactService.buildResponse, acting on
the accumulator (emails, phoneNumbers, secondaryContactIds). -/

def respStep (acc : List String × List String × List Nat) (sec : Contact) :
    List String × List String × List Nat :=
  let ids := acc.2.2 ++ [sec.id]
  let es :=
    match sec.email with
    | some e => if e != "" && !(acc.1.contains e) then acc.1 ++ [e] else acc.1
    | none => acc.1
  let ps :=
    match sec.phoneNumber with
    | some p => if p != "" && !(acc.2.1.contains p) then acc.2.1 ++ [p] else acc.2.1
    | none => acc.2.1
  (es, ps, ids)

/-- ContactService.buildResponse. -/

def buildResponse (primaryContact : Contact) (secondaries : List Contact) : IdentifyResponse :=
  let init := (pushIfTruthy [] primaryContact.email,
               pushIfTruthy [] primaryContact.phoneNumber, ([] : List Nat))
  let r := secondaries.foldl respStep init
  { primaryContactId := primaryContact.id, emails := r.1,
    phoneNumbers := r.2.1, secondaryContactIds := r.2.2 }

/-- ContactService.handleNoMatch: create a fresh primary and answer with it
as the sole cluster member. -/

def handleNoMatch (s : Store) (email phoneNumber : Option String) : IdentifyResponse × Store :=
  let r := createContact s
    { email := email, phoneNumber := phoneNumber, linkPrecedence := LinkPrecedence.primary }
  (buildResponse r.1 [], r.2)

/-- ContactService.handleMatch; `none` models the crash when
`resolvePrimary` yields `undefined` (the transaction then aborts). -/

def handleMatch (s : Store) (matchingContacts : List Contact) (email phoneNumber : Option String) :
    Option (IdentifyResponse × Store) :=
  let allContacts := collectFullCluster s matchingContacts
  match resolvePrimary s allContacts with
  | (none, _) => none
  | (some primaryContact, s1) =>
    let updatedCluster := refreshCluster s1 primaryContact
    let s2 := createSecondaryIfNeeded s1 updatedCluster primaryContact email phoneNumber
    let finalCluster := refreshCluster s2 primaryContact
    some (buildResponse primaryContact finalCluster, s2)

/-- ContactService.identify (the transaction body). -/

def identify (s : Store) (email phoneNumber : Option String) :
    Option (IdentifyResponse × Store) :=
  let matching := findMatchingContacts s email phoneNumber
  if matching.isEmpty then some (handleNoMatch s email phoneNumber)
  else handleMatch s matching email phoneNumber

inductive ControllerResult where
  | ok (resp : IdentifyResponse)
  | badRequest (message : String)
  | internalError
deriving DecidableEq

/-- JS `String.prototype.trim`: strip leading and trailing whitespace. -/

def jsTrim (s : String) : String :=
  ⟨((s.data.dropWhile Char.isWhitespace).reverse.dropWhile Char.isWhitespace).reverse⟩

/-- JS `String.prototype.toLowerCase` on the ASCII range. -/

def jsToLower (s : String) : String := ⟨s.data.map Char.toLower⟩

/-- The `if (email) email = email.trim().toLowerCase()` normalization of
ContactController.identify. -/

def normalizeEmail : Option String → Option String
  | none => none
  | some e => if e != "" then some (jsToLower (jsTrim e)) else some e

/-- The `if (phoneNumber) phoneNumber = String(phoneNumber).trim()`
normalization of ContactController.identify (string requests). -/

def normalizePhone : Option String → Option String
  | none => none
  | some p => if p != "" then some (jsTrim p) else some p

/-- The `email || null` coercion applied when calling the service. -/

def orNull : Option String → Option String
  | none => none
  | some v => if v != "" then some v else none

/-- ContactController.identify: reject when both inputs are falsy, else
normalize and call the service; a service crash surfaces as a 500 with
the transaction rolled back. -/

def controllerIdentify (s : Store) (email phoneNumber : Option String) :
    ControllerResult × Store :=
  if !truthy email && !truthy phoneNumber then
    (ControllerResult.badRequest "At least one of email or phoneNumber must be provided", s)
  else
    match identify s (orNull (normalizeEmail email)) (orNull (normalizePhone phoneNumber)) with
    | some (resp, s1) => (ControllerResult.ok resp, s1)
    | none => (ControllerResult.internalError, s)

/-- Well-formedness of a store state, as maintained by the service: strictly
`createdAt`-sorted rows, distinct positive ids below the id counter,
`createdAt` below the clock, no soft-deleted rows (this path never
deletes), primaries carry no `linkedId`, and each secondary links to an
existing primary. -/

def WF (s : Store) : Prop :=
  s.contacts.Pairwise createdLT ∧
  (s.contacts.map Contact.id).Nodup ∧
  0 < s.nextId ∧
  (∀ c ∈ s.contacts, 0 < c.id ∧ c.id < s.nextId ∧ c.createdAt < s.now ∧ c.deletedAt = none) ∧
  (∀ c ∈ s.contacts, c.linkPrecedence = LinkPrecedence.primary → c.linkedId = none) ∧
  (∀ c ∈ s.contacts, c.linkPrecedence = LinkPrecedence.secondary →
    ∃ p ∈ s.contacts, c.linkedId = some p.id ∧ p.linkPrecedence = LinkPrecedence.primary)

instance (s : Store) : Decidable (WF s) := by
  unfold WF
  infer_instance

/-! Basic facts about the order, the sorts and the queries. -/

instance : IsAntisymm Contact createdLT :=
  ⟨fun _ _ h h' => absurd (Nat.lt_trans h h') (Nat.lt_irrefl _)⟩

/-- The filter body of `findMatchingContacts` with the `deletedAt` test
dropped (vacuous on well-formed stores). -/

def matchesInput (email phoneNumber : Option String) (c : Contact) : Bool :=
  (truthy email && c.email == email) || (truthy phoneNumber && c.phoneNumber == phoneNumber)

/-- The pointwise effect on a contact of demoting the primaries with ids in
`ids` to the oldest primary `oid`: a demoted primary turns secondary and
links to `oid`; a contact linked to a demoted primary is re-pointed. -/

def demoteF (oid : Nat) (ids : List Nat) (c : Contact) : Contact :=
  if c.id ∈ ids then { c with linkPrecedence := LinkPrecedence.secondary, linkedId := some oid }
  else
    match c.linkedId with
    | some l => if l ∈ ids then { c with linkedId := some oid } else c
    | none => c

/-- The update payload demoting a primary. -/

def demoteUpd (oid : Nat) : UpdateData :=
  { linkedId := some (some oid), linkPrecedence := some LinkPrecedence.secondary }

/-- The update payload re-pointing a secondary. -/

def relinkUpd (oid : Nat) : UpdateData :=
  { linkedId := some (some oid) }

/-! Characterization of the JS `Map`/`Set` used by `collectFullCluster`:
keys, values and the invariant that every stored value is a store row
keyed by its own id. -/

def mapKeys (m : List (Nat × Contact)) : List Nat := m.map Prod.fst

/-- Every value held by the cluster map is a store row keyed by its id. -/

def MapInv (s : Store) (m : List (Nat × Contact)) : Prop :=
  ∀ kv ∈ m, kv.2 ∈ s.contacts ∧ kv.2.id = kv.1

/-- The member set of the collected cluster, as a filter of the store: the
matched contacts, the rows keyed by a discovered primary id, and the rows
linked to a discovered primary id. -/

def clusterOf (s : Store) (matched : List Contact) : List Contact :=
  s.contacts.filter (fun c => decide (c ∈ matched ∨ c.id ∈ primaryIdsOf matched ∨
    ∃ l, c.linkedId = some l ∧ l ∈ primaryIdsOf matched))

/-- The creation payload of a new secondary linked to the resolved primary. -/

def secondaryData (e p : Option String) (prId : Nat) : CreateData :=
  { email := e, phoneNumber := p, linkedId := some prId,
    linkPrecedence := LinkPrecedence.secondary }

/-- The store after the demotion pass of `resolvePrimary`. -/

def demotedStore (s : Store) (oid : Nat) (ids : List Nat) : Store :=
  { s with contacts := s.contacts.map (demoteF oid ids) }

/-- The store after the secondary-creation decision. -/

def afterCreate (s1 : Store) (Pr : Contact) (e p : Option String) : Store :=
  if comboExists (Pr :: refreshCluster s1 Pr) e p then s1
  else (createContact s1 (secondaryData e p Pr.id)).2

/-- Post-conditions of a completed `identify` call: the resulting store is
well-formed, a resolved primary exists, every row matching the inputs is
the primary or linked to it, the supplied combination exists in the
primary's cluster, the response is assembled from the refreshed cluster,
and at most one row was created. -/

structure IdPost (s : Store) (e p : Option String) (resp : IdentifyResponse)
    (s2 : Store) (Pr : Contact) : Prop where
  wf : WF s2
  prMem : Pr ∈ s2.contacts
  prPrim : Pr.linkPrecedence = LinkPrecedence.primary
  absorb : ∀ c ∈ s2.contacts, matchesInput e p c = true →
    c.id = Pr.id ∨ c.linkedId = some Pr.id
  combo : comboExists (Pr :: refreshCluster s2 Pr) e p = true
  respEq : resp = buildResponse Pr (refreshCluster s2 Pr)
  grow : s.contacts.length ≤ s2.contacts.length ∧
    s2.contacts.length ≤ s.contacts.length + 1
  fieldsFrom : ∀ c ∈ s2.contacts,
    (∃ c0 ∈ s.contacts, c.email = c0.email ∧ c.phoneNumber = c0.phoneNumber) ∨
    (c.email = e ∧ c.phoneNumber = p)

/-- The creation payload of a fresh primary carrying the inputs. -/

def primaryData (e p : Option String) : CreateData :=
  { email := e, phoneNumber := p, linkPrecedence := LinkPrecedence.primary }

/-! Response assembly: `buildResponse` computes the first-seen
deduplication of the primary's value followed by the secondaries' values. -/

def optToList : Option String → List String
  | some v => [v]
  | none => []

def addDistinct (acc : List String) (x : String) : List String :=
  if x ∈ acc then acc else acc ++ [x]

def dedupFirstSeen (l : List String) : List String := l.foldl addDistinct []

def emailStep (es : List String) (c : Contact) : List String :=
  match c.email with
  | some v => if v != "" && !(es.contains v) then es ++ [v] else es
  | none => es

def phoneStep (ps : List String) (c : Contact) : List String :=
  match c.phoneNumber with
  | some v => if v != "" && !(ps.contains v) then ps ++ [v] else ps
  | none => ps

/-! Example data used to witness the theorems on concrete inputs. -/

def exPrimary : Contact :=
  ⟨1, some "a@x.com", some "111", none, LinkPrecedence.primary, 0, none⟩

def exSecondary : Contact :=
  ⟨2, some "b@x.com", some "222", some 1, LinkPrecedence.secondary, 1, none⟩

def exStore : Store := ⟨[exPrimary, exSecondary], 3, 2⟩

def exEmpty : Store := ⟨[], 1, 0⟩

def exQ1 : Contact := ⟨1, some "a@x.com", none, none, LinkPrecedence.primary, 0, none⟩

def exQ2 : Contact := ⟨2, none, some "222", none, LinkPrecedence.primary, 1, none⟩

def exQ3 : Contact := ⟨3, some "c@x.com", some "333", some 2, LinkPrecedence.secondary, 2, none⟩

def exMerge : Store := ⟨[exQ1, exQ2, exQ3], 4, 3⟩

/-! Theorems. -/

theorem createdLE_of_LT {a b : Contact} (h : createdLT a b) : createdLE a b :=
  Nat.le_of_lt h

theorem pairwise_ne_of_pairwise_lt {l : List Contact} (h : l.Pairwise createdLT) :
    l.Pairwise (fun a b => a.createdAt ≠ b.createdAt) :=
  h.imp (fun hab => Nat.ne_of_lt hab)

theorem nodup_of_pairwise_lt {l : List Contact} (h : l.Pairwise createdLT) : l.Nodup :=
  h.imp (fun hab => by intro he; exact absurd (he ▸ hab) (Nat.lt_irrefl _))

theorem pairwise_lt_of_le_of_ne {l : List Contact} (hle : l.Pairwise createdLE)
    (hne : l.Pairwise (fun a b => a.createdAt ≠ b.createdAt)) : l.Pairwise createdLT := by
  induction l with
  | nil => exact List.Pairwise.nil
  | cons a t ih =>
    rcases List.pairwise_cons.mp hle with ⟨h1, h2⟩
    rcases List.pairwise_cons.mp hne with ⟨h3, h4⟩
    exact List.pairwise_cons.mpr
      ⟨fun b hb => Nat.lt_of_le_of_ne (h1 b hb) (h3 b hb), ih h2 h4⟩

theorem sortByCreated_perm (l : List Contact) : (sortByCreated l).Perm l :=
  List.perm_insertionSort createdLE l

theorem mem_sortByCreated {l : List Contact} {c : Contact} :
    c ∈ sortByCreated l ↔ c ∈ l :=
  (sortByCreated_perm l).mem_iff

theorem sortByCreated_eq_self {l : List Contact} (h : l.Pairwise createdLE) :
    sortByCreated l = l :=
  List.Sorted.insertionSort_eq h

theorem sortByCreated_eq_self_of_lt {l : List Contact} (h : l.Pairwise createdLT) :
    sortByCreated l = l :=
  sortByCreated_eq_self (h.imp createdLE_of_LT)

theorem sortByCreated_sorted (l : List Contact) :
    (sortByCreated l).Pairwise createdLE :=
  List.sorted_insertionSort createdLE l

theorem sortByCreated_eq_of_perm_of_lt {l l' : List Contact} (hp : l.Perm l')
    (h' : l'.Pairwise createdLT) : sortByCreated l = l' := by
  have hperm : (sortByCreated l).Perm l' := (sortByCreated_perm l).trans hp
  have hne : (sortByCreated l).Pairwise (fun a b => a.createdAt ≠ b.createdAt) :=
    (hperm.pairwise_iff (fun h => h.symm)).mpr (pairwise_ne_of_pairwise_lt h')
  have hlt : (sortByCreated l).Pairwise createdLT :=
    pairwise_lt_of_le_of_ne (sortByCreated_sorted l) hne
  exact List.eq_of_perm_of_sorted hperm hlt h'

/-- Projections of `WF`, for readability. -/

theorem WF.sortedLT {s : Store} (h : WF s) : s.contacts.Pairwise createdLT := h.1

theorem WF.idsNodup {s : Store} (h : WF s) : (s.contacts.map Contact.id).Nodup := h.2.1

theorem WF.nextIdPos {s : Store} (h : WF s) : 0 < s.nextId := h.2.2.1

theorem WF.bounds {s : Store} (h : WF s) :
    ∀ c ∈ s.contacts, 0 < c.id ∧ c.id < s.nextId ∧ c.createdAt < s.now ∧ c.deletedAt = none :=
  h.2.2.2.1

theorem WF.primNoLink {s : Store} (h : WF s) :
    ∀ c ∈ s.contacts, c.linkPrecedence = LinkPrecedence.primary → c.linkedId = none :=
  h.2.2.2.2.1

theorem WF.secLink {s : Store} (h : WF s) :
    ∀ c ∈ s.contacts, c.linkPrecedence = LinkPrecedence.secondary →
      ∃ p ∈ s.contacts, c.linkedId = some p.id ∧ p.linkPrecedence = LinkPrecedence.primary :=
  h.2.2.2.2.2

theorem WF.notDeleted {s : Store} (h : WF s) : ∀ c ∈ s.contacts, c.deletedAt = none :=
  fun c hc => (h.bounds c hc).2.2.2

theorem WF.idPos {s : Store} (h : WF s) : ∀ c ∈ s.contacts, 0 < c.id :=
  fun c hc => (h.bounds c hc).1

theorem WF.idInj {s : Store} (h : WF s) {a b : Contact} (ha : a ∈ s.contacts)
    (hb : b ∈ s.contacts) (hab : a.id = b.id) : a = b := by
  have := h.idsNodup
  exact List.inj_on_of_nodup_map this ha hb hab

/-- A contact's precedence is one of the two enum values. -/

theorem precedence_cases (c : Contact) :
    c.linkPrecedence = LinkPrecedence.primary ∨ c.linkPrecedence = LinkPrecedence.secondary := by
  cases h : c.linkPrecedence
  · exact Or.inl rfl
  · exact Or.inr rfl

theorem isPrimaryC_iff {c : Contact} :
    isPrimaryC c = true ↔ c.linkPrecedence = LinkPrecedence.primary := by
  simp [isPrimaryC]

theorem isPrimaryC_false_iff {c : Contact} :
    isPrimaryC c = false ↔ c.linkPrecedence = LinkPrecedence.secondary := by
  rcases precedence_cases c with h | h <;> simp [isPrimaryC, h]

/-- First-match lookup on a list with distinct ids returns the member itself. -/

theorem find_by_id_unique {c : Contact} :
    ∀ {l : List Contact}, (l.map Contact.id).Nodup → c ∈ l →
      l.find? (fun x => x.id == c.id) = some c := by
  intro l
  induction l with
  | nil => intro _ h; exact absurd h (List.not_mem_nil c)
  | cons a t ih =>
    intro hnodup hmem
    rcases List.nodup_cons.mp hnodup with ⟨hna, hnt⟩
    by_cases hid : a.id = c.id
    · have hca : c = a := by
        rcases List.mem_cons.mp hmem with h | h
        · exact h
        · exact absurd (hid ▸ List.mem_map_of_mem Contact.id h) hna
      simp [List.find?_cons, hid, hca]
    · have hmt : c ∈ t := by
        rcases List.mem_cons.mp hmem with h | h
        · exact absurd (h ▸ rfl) hid
        · exact h
      simpa [List.find?_cons, hid] using ih hnt hmt

theorem findContactById_eq_some {s : Store} (h : WF s) {c : Contact} (hc : c ∈ s.contacts) :
    findContactById s c.id = some c :=
  find_by_id_unique h.idsNodup hc

theorem findContactById_mem {s : Store} {i : Nat} {c : Contact}
    (h : findContactById s i = some c) : c ∈ s.contacts ∧ c.id = i := by
  refine ⟨List.mem_of_find?_eq_some h, ?_⟩
  have := List.find?_some h
  simpa using this

theorem findContactById_eq_none {s : Store} {i : Nat}
    (h : ∀ c ∈ s.contacts, c.id ≠ i) : findContactById s i = none := by
  apply List.find?_eq_none.mpr
  intro c hc
  simpa using h c hc

/-! Query characterizations under well-formedness: the `orderBy createdAt`
sort is the identity on a filter of the strictly sorted store, and the
`deletedAt` filter is vacuous since this path never deletes. -/

theorem sortByCreated_filter {s : Store} (h : WF s) (q : Contact → Bool) :
    sortByCreated (s.contacts.filter q) = s.contacts.filter q :=
  sortByCreated_eq_self_of_lt (List.Pairwise.sublist (List.filter_sublist s.contacts) h.sortedLT)

theorem findByPrimaryId_eq {s : Store} (h : WF s) (pid : Nat) :
    findContactsByPrimaryId s pid = s.contacts.filter (fun c => c.linkedId == some pid) := by
  unfold findContactsByPrimaryId
  have hcg : s.contacts.filter (fun c => c.linkedId == some pid && c.deletedAt == none)
      = s.contacts.filter (fun c => c.linkedId == some pid) :=
    List.filter_congr (fun c hc => by simp [h.notDeleted c hc])
  rw [hcg]
  exact sortByCreated_filter h _

theorem mem_findByPrimaryId {s : Store} (h : WF s) {pid : Nat} {c : Contact} :
    c ∈ findContactsByPrimaryId s pid ↔ c ∈ s.contacts ∧ c.linkedId = some pid := by
  rw [findByPrimaryId_eq h, List.mem_filter]
  simp

theorem findMatching_eq {s : Store} (h : WF s) {e p : Option String}
    (ht : (truthy e || truthy p) = true) :
    findMatchingContacts s e p = s.contacts.filter (matchesInput e p) := by
  unfold findMatchingContacts
  have hcg : s.contacts.filter (fun c =>
      ((truthy e && c.email == e) || (truthy p && c.phoneNumber == p)) && c.deletedAt == none)
      = s.contacts.filter (matchesInput e p) :=
    List.filter_congr (fun c hc => by simp [matchesInput, h.notDeleted c hc])
  rw [if_pos ht, hcg]
  exact sortByCreated_filter h _

theorem findMatching_empty_of_falsy {s : Store} {e p : Option String}
    (ht : (truthy e || truthy p) = false) : findMatchingContacts s e p = [] := by
  unfold findMatchingContacts
  rw [if_neg (by simp [ht])]

theorem truthy_or_of_matching_ne {s : Store} {e p : Option String}
    (h : findMatchingContacts s e p ≠ []) : (truthy e || truthy p) = true := by
  by_cases ht : (truthy e || truthy p) = true
  · exact ht
  · exact absurd (findMatching_empty_of_falsy (by simpa using ht)) h

theorem mem_findMatching {s : Store} (h : WF s) {e p : Option String} {c : Contact} :
    c ∈ findMatchingContacts s e p ↔
      (truthy e || truthy p) = true ∧ c ∈ s.contacts ∧ matchesInput e p c = true := by
  by_cases ht : (truthy e || truthy p) = true
  · rw [findMatching_eq h ht, List.mem_filter]
    tauto
  · rw [findMatching_empty_of_falsy (by simpa using ht)]
    simp [ht]

theorem matching_sub {s : Store} (h : WF s) {e p : Option String} {c : Contact}
    (hc : c ∈ findMatchingContacts s e p) : c ∈ s.contacts :=
  ((mem_findMatching h).mp hc).2.1

/-! Pointwise characterization of `updateContact` and of sequences of
updates: updating a batch of ids acts as a map over the store. -/

theorem applyUpdate_id (d : UpdateData) (c : Contact) : (applyUpdate d c).id = c.id := rfl

theorem applyUpdate_fields (d : UpdateData) (c : Contact) :
    (applyUpdate d c).email = c.email ∧ (applyUpdate d c).phoneNumber = c.phoneNumber ∧
    (applyUpdate d c).createdAt = c.createdAt ∧ (applyUpdate d c).deletedAt = c.deletedAt :=
  ⟨rfl, rfl, rfl, rfl⟩

theorem applyUpdate_idem (d : UpdateData) (c : Contact) :
    applyUpdate d (applyUpdate d c) = applyUpdate d c := by
  cases d with
  | mk l lp => cases l <;> cases lp <;> simp [applyUpdate]

theorem updateContact_eq (s : Store) (i : Nat) (d : UpdateData) :
    updateContact s i d =
      { s with contacts := s.contacts.map (fun c => if c.id = i then applyUpdate d c else c) } := by
  unfold updateContact
  congr 1
  exact List.map_congr_left (fun c _ => by by_cases h : c.id = i <;> simp [h])

theorem foldl_update_eq (d : UpdateData) :
    ∀ (L : List Contact) (s : Store),
      L.foldl (fun st sec => updateContact st sec.id d) s =
        { s with contacts :=
            s.contacts.map (fun c => if c.id ∈ L.map Contact.id then applyUpdate d c else c) } := by
  intro L
  induction L with
  | nil =>
    intro s
    simp only [List.foldl_nil, List.map_nil]
    have hfun : (fun c => if c.id ∈ ([] : List Nat) then applyUpdate d c else c)
        = fun c => c := funext fun c => by rw [if_neg (List.not_mem_nil c.id)]
    rw [hfun, List.map_id']
  | cons a t ih =>
    intro s
    rw [List.foldl_cons, ih, updateContact_eq]
    simp only [List.map_map, List.map_cons]
    congr 1
    apply List.map_congr_left
    intro c _
    show (fun x => if x.id ∈ t.map Contact.id then applyUpdate d x else x)
        (if c.id = a.id then applyUpdate d c else c)
      = if c.id ∈ a.id :: t.map Contact.id then applyUpdate d c else c
    by_cases ha : c.id = a.id
    · rw [if_pos ha, if_pos (List.mem_cons.mpr (Or.inl ha))]
      show (if (applyUpdate d c).id ∈ t.map Contact.id then applyUpdate d (applyUpdate d c)
            else applyUpdate d c) = applyUpdate d c
      rw [applyUpdate_id]
      by_cases htid : c.id ∈ t.map Contact.id
      · rw [if_pos htid, applyUpdate_idem]
      · rw [if_neg htid]
    · rw [if_neg ha]
      show (if c.id ∈ t.map Contact.id then applyUpdate d c else c)
        = if c.id ∈ a.id :: t.map Contact.id then applyUpdate d c else c
      by_cases htid : c.id ∈ t.map Contact.id
      · rw [if_pos htid, if_pos (List.mem_cons.mpr (Or.inr htid))]
      · rw [if_neg htid, if_neg (by
          intro hmem
          rcases List.mem_cons.mp hmem with h | h
          · exact ha h
          · exact htid h)]

theorem demoteF_nil (oid : Nat) (c : Contact) : demoteF oid [] c = c := by
  cases h : c.linkedId <;> simp [demoteF, h]

theorem demoteF_id (oid : Nat) (ids : List Nat) (c : Contact) : (demoteF oid ids c).id = c.id := by
  by_cases hid : c.id ∈ ids
  · simp [demoteF, hid]
  · cases h : c.linkedId with
    | none => simp [demoteF, hid, h]
    | some l => by_cases hl : l ∈ ids <;> simp [demoteF, hid, h, hl]

theorem demoteF_fields (oid : Nat) (ids : List Nat) (c : Contact) :
    (demoteF oid ids c).email = c.email ∧ (demoteF oid ids c).phoneNumber = c.phoneNumber ∧
    (demoteF oid ids c).createdAt = c.createdAt ∧ (demoteF oid ids c).deletedAt = c.deletedAt := by
  by_cases hid : c.id ∈ ids
  · simp [demoteF, hid]
  · cases h : c.linkedId with
    | none => simp [demoteF, hid, h]
    | some l => by_cases hl : l ∈ ids <;> simp [demoteF, hid, h, hl]

theorem map_id_of_map_demoteF (oid : Nat) (ids : List Nat) (l : List Contact) :
    (l.map (demoteF oid ids)).map Contact.id = l.map Contact.id := by
  rw [List.map_map]
  exact List.map_congr_left (fun c _ => demoteF_id oid ids c)

theorem mem_findByPrimaryId' {s : Store} (hdel : ∀ c ∈ s.contacts, c.deletedAt = none)
    {pid : Nat} {c : Contact} :
    c ∈ findContactsByPrimaryId s pid ↔ c ∈ s.contacts ∧ c.linkedId = some pid := by
  unfold findContactsByPrimaryId
  rw [mem_sortByCreated, List.mem_filter]
  simp only [Bool.and_eq_true, beq_iff_eq]
  constructor
  · rintro ⟨h1, h2, _⟩
    exact ⟨h1, h2⟩
  · rintro ⟨h1, h2⟩
    exact ⟨h1, h2, hdel c h1⟩

theorem mem_ids_findByPrimaryId {s : Store}
    (hnodup : (s.contacts.map Contact.id).Nodup)
    (hdel : ∀ c ∈ s.contacts, c.deletedAt = none)
    {pid : Nat} {c : Contact} (hc : c ∈ s.contacts) :
    c.id ∈ (findContactsByPrimaryId s pid).map Contact.id ↔ c.linkedId = some pid := by
  constructor
  · intro h
    rcases List.mem_map.mp h with ⟨sec, hsec, hsecid⟩
    rcases (mem_findByPrimaryId' hdel).mp hsec with ⟨hsecmem, hseclink⟩
    have heq : sec = c := List.inj_on_of_nodup_map hnodup hsecmem hc hsecid
    exact heq ▸ hseclink
  · intro h
    exact List.mem_map_of_mem Contact.id ((mem_findByPrimaryId' hdel).mpr ⟨hc, h⟩)

theorem applyUpdate_demote (oid : Nat) (c : Contact) :
    applyUpdate (demoteUpd oid) c =
      { c with linkPrecedence := LinkPrecedence.secondary, linkedId := some oid } := by
  simp [applyUpdate, demoteUpd]

theorem applyUpdate_relink (oid : Nat) (c : Contact) :
    applyUpdate (relinkUpd oid) c = { c with linkedId := some oid } := by
  simp [applyUpdate, relinkUpd]

theorem demoteOne_def (s : Store) (oid : Nat) (np : Contact) :
    demoteOne s oid np =
      (findContactsByPrimaryId (updateContact s np.id (demoteUpd oid)) np.id).foldl
        (fun st sec => updateContact st sec.id (relinkUpd oid))
        (updateContact s np.id (demoteUpd oid)) := rfl

theorem demoteOne_eq {s : Store} {oid : Nat} {np : Contact}
    (hnodup : (s.contacts.map Contact.id).Nodup)
    (hdel : ∀ c ∈ s.contacts, c.deletedAt = none)
    (hne : oid ≠ np.id) :
    demoteOne s oid np = { s with contacts := s.contacts.map (demoteF oid [np.id]) } := by
  have hids1 : (updateContact s np.id (demoteUpd oid)).contacts.map Contact.id
      = s.contacts.map Contact.id := by
    rw [updateContact_eq, List.map_map]
    exact List.map_congr_left (fun c _ => by
      by_cases h : c.id = np.id <;> simp [h, applyUpdate_id])
  have hdel1 : ∀ c1 ∈ (updateContact s np.id (demoteUpd oid)).contacts, c1.deletedAt = none := by
    intro c1 hc1
    rw [updateContact_eq] at hc1
    rcases List.mem_map.mp hc1 with ⟨c, hc, hceq⟩
    subst hceq
    by_cases h : c.id = np.id <;> simp [h, (applyUpdate_fields _ c).2.2.2, hdel c hc]
  have hnodup1 : ((updateContact s np.id (demoteUpd oid)).contacts.map Contact.id).Nodup := by
    rw [hids1]; exact hnodup
  have hmemiff : ∀ c1 ∈ (updateContact s np.id (demoteUpd oid)).contacts,
      (c1.id ∈ (findContactsByPrimaryId (updateContact s np.id (demoteUpd oid)) np.id).map
        Contact.id ↔ c1.linkedId = some np.id) :=
    fun c1 hc1 => mem_ids_findByPrimaryId hnodup1 hdel1 hc1
  rw [demoteOne_def, foldl_update_eq]
  have hcont : (updateContact s np.id (demoteUpd oid)).contacts
      = s.contacts.map (fun c => if c.id = np.id then applyUpdate (demoteUpd oid) c else c) := by
    rw [updateContact_eq]
  have hnext : (updateContact s np.id (demoteUpd oid)).nextId = s.nextId := rfl
  have hnow : (updateContact s np.id (demoteUpd oid)).now = s.now := rfl
  refine Store.mk.injEq .. ▸ ?_
  refine ⟨?_, hnext, hnow⟩
  show (updateContact s np.id (demoteUpd oid)).contacts.map _ = _
  conv_lhs => rw [hcont, List.map_map]
  apply List.map_congr_left
  intro c hc
  show (fun c1 => if c1.id ∈ (findContactsByPrimaryId (updateContact s np.id (demoteUpd oid))
      np.id).map Contact.id then applyUpdate (relinkUpd oid) c1 else c1)
    ((fun x => if x.id = np.id then applyUpdate (demoteUpd oid) x else x) c)
    = demoteF oid [np.id] c
  by_cases hcnp : c.id = np.id
  · have himg : applyUpdate (demoteUpd oid) c ∈ (updateContact s np.id (demoteUpd oid)).contacts := by
      rw [hcont]
      exact List.mem_map.mpr ⟨c, hc, by simp [hcnp]⟩
    have hlinked : (applyUpdate (demoteUpd oid) c).linkedId = some oid := by
      rw [applyUpdate_demote]
    have hnotm : ¬ ((applyUpdate (demoteUpd oid) c).id
        ∈ (findContactsByPrimaryId (updateContact s np.id (demoteUpd oid)) np.id).map
          Contact.id) := by
      rw [hmemiff _ himg, hlinked]
      intro habs
      exact hne (Option.some_injective _ habs)
    simp only [hcnp, if_true, ite_true]
    rw [if_neg hnotm, applyUpdate_demote, demoteF, if_pos (List.mem_singleton.mpr hcnp)]
  · have himg : c ∈ (updateContact s np.id (demoteUpd oid)).contacts := by
      rw [hcont]
      exact List.mem_map.mpr ⟨c, hc, by simp [hcnp]⟩
    simp only [hcnp, if_neg, ite_false]
    by_cases hlink : c.linkedId = some np.id
    · have hm : c.id ∈ (findContactsByPrimaryId (updateContact s np.id (demoteUpd oid))
          np.id).map Contact.id := (hmemiff c himg).mpr hlink
      rw [if_pos hm, applyUpdate_relink, demoteF,
        if_neg (fun habs => hcnp (List.mem_singleton.mp habs)), hlink]
      simp
    · have hm : ¬ (c.id ∈ (findContactsByPrimaryId (updateContact s np.id (demoteUpd oid))
          np.id).map Contact.id) := fun habs => hlink ((hmemiff c himg).mp habs)
      rw [if_neg hm, demoteF, if_neg (fun habs => hcnp (List.mem_singleton.mp habs))]
      cases hl : c.linkedId with
      | none => rfl
      | some l =>
        have hnl : l ≠ np.id := by
          intro habs
          exact hlink (by rw [hl, habs])
        simp [hnl]

theorem demote_foldl (oid : Nat) :
    ∀ (rest : List Contact) (s : Store),
      (s.contacts.map Contact.id).Nodup →
      (∀ c ∈ s.contacts, c.deletedAt = none) →
      (rest.map Contact.id).Nodup →
      (∀ np ∈ rest, np ∈ s.contacts ∧ np.linkedId = none) →
      oid ∉ rest.map Contact.id →
      rest.foldl (fun st np => demoteOne st oid np) s =
        { s with contacts := s.contacts.map (demoteF oid (rest.map Contact.id)) } := by
  intro rest
  induction rest with
  | nil =>
    intro s _ _ _ _ _
    simp only [List.foldl_nil, List.map_nil]
    have hfun : s.contacts.map (demoteF oid []) = s.contacts := by
      rw [List.map_congr_left (fun c _ => demoteF_nil oid c), List.map_id']
    rw [hfun]
  | cons np t ih =>
    intro s hnodup hdel hrnodup hmem hoid
    have hnpid : oid ≠ np.id := by
      intro habs
      exact hoid (habs ▸ List.mem_cons.mpr (Or.inl rfl))
    have hoidt : oid ∉ t.map Contact.id := fun h => hoid (List.mem_cons.mpr (Or.inr h))
    have hnpt : np.id ∉ t.map Contact.id := (List.nodup_cons.mp (by simpa using hrnodup)).1
    rw [List.foldl_cons, demoteOne_eq hnodup hdel hnpid]
    rw [ih { s with contacts := s.contacts.map (demoteF oid [np.id]) }
      (by rw [map_id_of_map_demoteF]; exact hnodup)
      (by
        intro c1 hc1
        rcases List.mem_map.mp hc1 with ⟨c, hc, hceq⟩
        exact hceq ▸ ((demoteF_fields oid [np.id] c).2.2.2).trans (hdel c hc))
      (List.nodup_cons.mp (by simpa using hrnodup)).2
      (by
        intro np' hnp'
        rcases hmem np' (List.mem_cons.mpr (Or.inr hnp')) with ⟨hnp's, hnp'l⟩
        have hne' : np'.id ≠ np.id := by
          intro habs
          exact hnpt (habs ▸ List.mem_map_of_mem Contact.id hnp')
        have himg : demoteF oid [np.id] np' = np' := by
          rw [demoteF, if_neg (fun h => hne' (List.mem_singleton.mp h)), hnp'l]
        exact ⟨himg ▸ List.mem_map_of_mem _ hnp's, hnp'l⟩)
      hoidt]
    simp only [List.map_map, List.map_cons]
    congr 1
    apply List.map_congr_left
    intro c hc
    show demoteF oid (t.map Contact.id) (demoteF oid [np.id] c)
      = demoteF oid (np.id :: t.map Contact.id) c
    have hfact : c.id ∈ t.map Contact.id → c.linkedId = none ∧ c.id ≠ np.id := by
      intro hct
      rcases List.mem_map.mp hct with ⟨np', hnp', hnp'id⟩
      rcases hmem np' (List.mem_cons.mpr (Or.inr hnp')) with ⟨hnp's, hnp'l⟩
      have : np' = c := List.inj_on_of_nodup_map hnodup hnp's hc hnp'id
      subst this
      refine ⟨hnp'l, fun habs => hnpt (habs ▸ List.mem_map_of_mem Contact.id hnp')⟩
    by_cases hcnp : c.id = np.id
    · have h1 : demoteF oid [np.id] c
          = { c with linkPrecedence := LinkPrecedence.secondary, linkedId := some oid } := by
        rw [demoteF, if_pos (List.mem_singleton.mpr hcnp)]
      rw [h1, demoteF, if_neg (by
        intro habs
        simp only [Contact.mk.injEq] at habs ⊢
        exact hnpt (hcnp ▸ habs))]
      have h2 : demoteF oid (np.id :: t.map Contact.id) c
          = { c with linkPrecedence := LinkPrecedence.secondary, linkedId := some oid } := by
        rw [demoteF, if_pos (List.mem_cons.mpr (Or.inl hcnp))]
      rw [h2]
      simp [hoidt]
    · by_cases hct : c.id ∈ t.map Contact.id
      · rcases hfact hct with ⟨hlknone, _⟩
        have h1 : demoteF oid [np.id] c = c := by
          rw [demoteF, if_neg (fun h => hcnp (List.mem_singleton.mp h)), hlknone]
        rw [h1, demoteF, if_pos hct, demoteF, if_pos (List.mem_cons.mpr (Or.inr hct))]
      · have hcin : c.id ∉ np.id :: t.map Contact.id := by
          intro habs
          rcases List.mem_cons.mp habs with h | h
          · exact hcnp h
          · exact hct h
        cases hl : c.linkedId with
        | none => simp [demoteF, hl, hcnp, hct]
        | some l =>
          by_cases hlnp : l = np.id
          · subst hlnp
            simp [demoteF, hl, hcnp, hct, hoidt]
          · by_cases hlt : l ∈ t.map Contact.id
            · simp [demoteF, hl, hcnp, hct, hlnp, hlt]
            · simp [demoteF, hl, hcnp, hct, hlnp, hlt]

theorem mapHas_iff (m : List (Nat × Contact)) (k : Nat) :
    (m.any (fun kv => kv.1 == k) = true) ↔ k ∈ mapKeys m := by
  rw [List.any_eq_true]
  unfold mapKeys
  rw [List.mem_map]
  constructor
  · rintro ⟨kv, hkv, he⟩
    exact ⟨kv, hkv, by simpa using he⟩
  · rintro ⟨kv, hkv, he⟩
    exact ⟨kv, hkv, by simp [he]⟩

theorem mapSet_keys (m : List (Nat × Contact)) (k : Nat) (v : Contact) :
    mapKeys (mapSet m k v) = if k ∈ mapKeys m then mapKeys m else mapKeys m ++ [k] := by
  unfold mapSet
  by_cases h : k ∈ mapKeys m
  · rw [if_pos ((mapHas_iff m k).mpr h), if_pos h]
    unfold mapKeys
    rw [List.map_map]
    exact List.map_congr_left fun kv _ => by by_cases hk : kv.1 = k <;> simp [hk]
  · rw [if_neg (fun ha => h ((mapHas_iff m k).mp ha)), if_neg h]
    unfold mapKeys
    rw [List.map_append]
    rfl

theorem mem_mapSet_keys {m : List (Nat × Contact)} {k k' : Nat} {v : Contact} :
    k' ∈ mapKeys (mapSet m k v) ↔ k' ∈ mapKeys m ∨ k' = k := by
  rw [mapSet_keys]
  by_cases h : k ∈ mapKeys m
  · rw [if_pos h]
    constructor
    · exact Or.inl
    · rintro (h' | h')
      · exact h'
      · exact h' ▸ h
  · rw [if_neg h, List.mem_append, List.mem_singleton]

theorem mapSet_keys_nodup {m : List (Nat × Contact)} {k : Nat} {v : Contact}
    (h : (mapKeys m).Nodup) : (mapKeys (mapSet m k v)).Nodup := by
  rw [mapSet_keys]
  by_cases hk : k ∈ mapKeys m
  · rw [if_pos hk]
    exact h
  · rw [if_neg hk]
    rw [List.nodup_append]
    refine ⟨h, List.nodup_singleton k, ?_⟩
    intro a ha hak
    exact hk ((List.mem_singleton.mp hak) ▸ ha)

theorem mem_mapSet {m : List (Nat × Contact)} {k : Nat} {v : Contact} {kv : Nat × Contact}
    (hkv : kv ∈ mapSet m k v) : kv ∈ m ∨ kv = (k, v) := by
  unfold mapSet at hkv
  by_cases h : m.any (fun kv => kv.1 == k) = true
  · rw [if_pos h] at hkv
    rcases List.mem_map.mp hkv with ⟨a, ha, hae⟩
    by_cases hk : a.1 = k
    · right
      rw [← hae]
      simp [hk]
    · left
      rw [← hae]
      simpa [hk] using ha
  · rw [if_neg h] at hkv
    rcases List.mem_append.mp hkv with h' | h'
    · exact Or.inl h'
    · exact Or.inr (List.mem_singleton.mp h')

theorem mapSet_inv {s : Store} {m : List (Nat × Contact)} {k : Nat} {v : Contact}
    (hinv : MapInv s m) (hv : v ∈ s.contacts) (hk : v.id = k) : MapInv s (mapSet m k v) := by
  intro kv hkv
  rcases mem_mapSet hkv with h | h
  · exact hinv kv h
  · subst h
    exact ⟨hv, hk⟩

theorem values_mem_iff {s : Store} {m : List (Nat × Contact)}
    (hids : (s.contacts.map Contact.id).Nodup) (hinv : MapInv s m) (v : Contact) :
    v ∈ m.map Prod.snd ↔ v ∈ s.contacts ∧ v.id ∈ mapKeys m := by
  constructor
  · intro h
    rcases List.mem_map.mp h with ⟨kv, hkv, hve⟩
    rcases hinv kv hkv with ⟨hmem, hid⟩
    subst hve
    exact ⟨hmem, hid ▸ List.mem_map_of_mem Prod.fst hkv⟩
  · rintro ⟨hv, hk⟩
    rcases List.mem_map.mp hk with ⟨kv, hkv, hke⟩
    rcases hinv kv hkv with ⟨hmem, hid⟩
    have : kv.2 = v := List.inj_on_of_nodup_map hids hmem hv (by rw [hid, hke])
    exact this ▸ List.mem_map_of_mem Prod.snd hkv

theorem values_nodup {s : Store} {m : List (Nat × Contact)}
    (hknd : (mapKeys m).Nodup) (hinv : MapInv s m) : (m.map Prod.snd).Nodup := by
  have hmnd : m.Nodup := List.Nodup.of_map Prod.fst hknd
  refine List.Nodup.map_on ?_ hmnd
  intro kv hkv kv' hkv' he
  rcases hinv kv hkv with ⟨_, hid⟩
  rcases hinv kv' hkv' with ⟨_, hid'⟩
  have h1 : kv.1 = kv'.1 := by rw [← hid, ← hid', he]
  exact Prod.ext h1 he

theorem foldl_mapSet_keys (L : List Contact) :
    ∀ (m : List (Nat × Contact)) (k : Nat),
      (k ∈ mapKeys (L.foldl (fun acc c => mapSet acc c.id c) m) ↔
        k ∈ mapKeys m ∨ ∃ c ∈ L, c.id = k) := by
  induction L with
  | nil => intro m k; simp
  | cons a t ih =>
    intro m k
    rw [List.foldl_cons, ih]
    constructor
    · rintro (h | h)
      · rcases mem_mapSet_keys.mp h with h' | h'
        · exact Or.inl h'
        · exact Or.inr ⟨a, List.mem_cons.mpr (Or.inl rfl), h'.symm⟩
      · rcases h with ⟨c, hc, hck⟩
        exact Or.inr ⟨c, List.mem_cons.mpr (Or.inr hc), hck⟩
    · rintro (h | ⟨c, hc, hck⟩)
      · exact Or.inl (mem_mapSet_keys.mpr (Or.inl h))
      · rcases List.mem_cons.mp hc with h' | h'
        · exact Or.inl (mem_mapSet_keys.mpr (Or.inr (h' ▸ hck.symm)))
        · exact Or.inr ⟨c, h', hck⟩

theorem foldl_mapSet_inv {s : Store} (L : List Contact) (hL : ∀ c ∈ L, c ∈ s.contacts) :
    ∀ (m : List (Nat × Contact)), MapInv s m →
      MapInv s (L.foldl (fun acc c => mapSet acc c.id c) m) := by
  induction L with
  | nil => intro m hm; exact hm
  | cons a t ih =>
    intro m hm
    rw [List.foldl_cons]
    exact ih (fun c hc => hL c (List.mem_cons.mpr (Or.inr hc)))
      (mapSet m a.id a) (mapSet_inv hm (hL a (List.mem_cons.mpr (Or.inl rfl))) rfl)

theorem foldl_mapSet_keys_nodup (L : List Contact) :
    ∀ (m : List (Nat × Contact)), (mapKeys m).Nodup →
      (mapKeys (L.foldl (fun acc c => mapSet acc c.id c) m)).Nodup := by
  induction L with
  | nil => intro m hm; exact hm
  | cons a t ih =>
    intro m hm
    rw [List.foldl_cons]
    exact ih (mapSet m a.id a) (mapSet_keys_nodup hm)

theorem collectStep_keys {s : Store} (hdel : ∀ c ∈ s.contacts, c.deletedAt = none)
    (m : List (Nat × Contact)) (pid k : Nat) :
    k ∈ mapKeys (collectStep s m pid) ↔
      k ∈ mapKeys m ∨ (k = pid ∧ ∃ c ∈ s.contacts, c.id = pid) ∨
        ∃ c ∈ s.contacts, c.linkedId = some pid ∧ c.id = k := by
  unfold collectStep
  rw [foldl_mapSet_keys]
  have hsecs : ∀ c : Contact, c ∈ findContactsByPrimaryId s pid ↔
      c ∈ s.contacts ∧ c.linkedId = some pid := fun c => mem_findByPrimaryId' hdel
  have hm1 : ∀ k', k' ∈ mapKeys
      (if m.any (fun kv => kv.1 == pid) then m
       else
        match findContactById s pid with
        | some p => if p.deletedAt == none then mapSet m p.id p else m
        | none => m) ↔
      (k' ∈ mapKeys m ∨ (k' = pid ∧ ∃ c ∈ s.contacts, c.id = pid)) := by
    intro k'
    by_cases hin : m.any (fun kv => kv.1 == pid) = true
    · rw [if_pos hin]
      constructor
      · exact Or.inl
      · rintro (h | ⟨hk, _⟩)
        · exact h
        · exact hk ▸ (mapHas_iff m pid).mp hin
    · rw [if_neg hin]
      cases hfind : findContactById s pid with
      | some c0 =>
        rcases findContactById_mem hfind with ⟨hc0, hc0id⟩
        show k' ∈ mapKeys (if (c0.deletedAt == none) = true then mapSet m c0.id c0 else m) ↔ _
        rw [if_pos (show (c0.deletedAt == none) = true by simp [hdel c0 hc0])]
        rw [mem_mapSet_keys]
        constructor
        · rintro (h | h)
          · exact Or.inl h
          · exact Or.inr ⟨h.trans hc0id, c0, hc0, hc0id⟩
        · rintro (h | ⟨hk, _⟩)
          · exact Or.inl h
          · exact Or.inr (hk.trans hc0id.symm)
      | none =>
        constructor
        · exact Or.inl
        · rintro (h | ⟨hk, c, hc, hcid⟩)
          · exact h
          · exact absurd hcid (by simpa using List.find?_eq_none.mp hfind c hc)
  rw [hm1]
  constructor
  · rintro (h | ⟨c, hc, hck⟩)
    · rcases h with h | h
      · exact Or.inl h
      · exact Or.inr (Or.inl h)
    · rcases (hsecs c).mp hc with ⟨hcs, hcl⟩
      exact Or.inr (Or.inr ⟨c, hcs, hcl, hck⟩)
  · rintro (h | h | ⟨c, hcs, hcl, hck⟩)
    · exact Or.inl (Or.inl h)
    · exact Or.inl (Or.inr h)
    · exact Or.inr ⟨c, (hsecs c).mpr ⟨hcs, hcl⟩, hck⟩

theorem collectStep_inv {s : Store} (hdel : ∀ c ∈ s.contacts, c.deletedAt = none)
    {m : List (Nat × Contact)} (pid : Nat) (hinv : MapInv s m) :
    MapInv s (collectStep s m pid) := by
  unfold collectStep
  refine foldl_mapSet_inv _ (fun c hc => ((mem_findByPrimaryId' hdel).mp hc).1) _ ?_
  by_cases hin : m.any (fun kv => kv.1 == pid) = true
  · rw [if_pos hin]
    exact hinv
  · rw [if_neg hin]
    cases hfind : findContactById s pid with
    | some c0 =>
      rcases findContactById_mem hfind with ⟨hc0, _⟩
      show MapInv s (if (c0.deletedAt == none) = true then mapSet m c0.id c0 else m)
      rw [if_pos (show (c0.deletedAt == none) = true by simp [hdel c0 hc0])]
      exact mapSet_inv hinv hc0 rfl
    | none => exact hinv

theorem collectStep_keys_nodup {s : Store} {m : List (Nat × Contact)} (pid : Nat)
    (hknd : (mapKeys m).Nodup) : (mapKeys (collectStep s m pid)).Nodup := by
  unfold collectStep
  refine foldl_mapSet_keys_nodup _ _ ?_
  by_cases hin : m.any (fun kv => kv.1 == pid) = true
  · rw [if_pos hin]
    exact hknd
  · rw [if_neg hin]
    cases hfind : findContactById s pid with
    | some c0 =>
      show (mapKeys (if (c0.deletedAt == none) = true then mapSet m c0.id c0 else m)).Nodup
      by_cases hd : (c0.deletedAt == none) = true
      · rw [if_pos hd]
        exact mapSet_keys_nodup hknd
      · rw [if_neg hd]
        exact hknd
    | none => exact hknd

theorem foldl_collectStep_keys {s : Store} (hdel : ∀ c ∈ s.contacts, c.deletedAt = none)
    (pids : List Nat) :
    ∀ (m : List (Nat × Contact)) (k : Nat),
      (k ∈ mapKeys (pids.foldl (collectStep s) m) ↔
        k ∈ mapKeys m ∨ ∃ pid ∈ pids,
          ((k = pid ∧ ∃ c ∈ s.contacts, c.id = pid) ∨
            ∃ c ∈ s.contacts, c.linkedId = some pid ∧ c.id = k)) := by
  induction pids with
  | nil => intro m k; simp
  | cons a t ih =>
    intro m k
    rw [List.foldl_cons, ih, collectStep_keys hdel]
    constructor
    · rintro ((h | h) | ⟨pid, hpid, h⟩)
      · exact Or.inl h
      · exact Or.inr ⟨a, List.mem_cons.mpr (Or.inl rfl), h⟩
      · exact Or.inr ⟨pid, List.mem_cons.mpr (Or.inr hpid), h⟩
    · rintro (h | ⟨pid, hpid, h⟩)
      · exact Or.inl (Or.inl h)
      · rcases List.mem_cons.mp hpid with h' | h'
        · exact Or.inl (h' ▸ Or.inr h)
        · exact Or.inr ⟨pid, h', h⟩

theorem foldl_collectStep_inv {s : Store} (hdel : ∀ c ∈ s.contacts, c.deletedAt = none)
    (pids : List Nat) :
    ∀ {m : List (Nat × Contact)}, MapInv s m → MapInv s (pids.foldl (collectStep s) m) := by
  induction pids with
  | nil => intro m hm; exact hm
  | cons a t ih =>
    intro m hm
    rw [List.foldl_cons]
    exact ih (collectStep_inv hdel a hm)

theorem foldl_collectStep_keys_nodup {s : Store} (pids : List Nat) :
    ∀ {m : List (Nat × Contact)}, (mapKeys m).Nodup →
      (mapKeys (pids.foldl (collectStep s) m)).Nodup := by
  induction pids with
  | nil => intro m hm; exact hm
  | cons a t ih =>
    intro m hm
    rw [List.foldl_cons]
    exact ih (collectStep_keys_nodup a hm)

theorem mem_setAdd {l : List Nat} {x y : Nat} : y ∈ setAdd l x ↔ y ∈ l ∨ y = x := by
  unfold setAdd
  by_cases h : x ∈ l
  · rw [if_pos h]
    constructor
    · exact Or.inl
    · rintro (h' | h')
      · exact h'
      · exact h' ▸ h
  · rw [if_neg h, List.mem_append, List.mem_singleton]

theorem mem_primaryIdsOf_aux (L : List Contact) :
    ∀ (init : List Nat) (pid : Nat),
      (pid ∈ L.foldl (fun ids c =>
          if isPrimaryC c then setAdd ids c.id
          else if truthyId c.linkedId then setAdd ids (c.linkedId.getD 0)
          else ids) init ↔
        pid ∈ init ∨ ∃ c ∈ L,
          (isPrimaryC c = true ∧ c.id = pid) ∨
          (isPrimaryC c = false ∧ c.linkedId = some pid ∧ pid ≠ 0)) := by
  induction L with
  | nil => intro init pid; simp
  | cons a t ih =>
    intro init pid
    rw [List.foldl_cons, ih]
    have hstep : pid ∈ (if isPrimaryC a then setAdd init a.id
        else if truthyId a.linkedId then setAdd init (a.linkedId.getD 0) else init) ↔
        (pid ∈ init ∨ ((isPrimaryC a = true ∧ a.id = pid) ∨
          (isPrimaryC a = false ∧ a.linkedId = some pid ∧ pid ≠ 0))) := by
      cases hP : isPrimaryC a with
      | true =>
        rw [if_pos rfl, mem_setAdd]
        constructor
        · rintro (h | h)
          · exact Or.inl h
          · exact Or.inr (Or.inl ⟨rfl, h.symm⟩)
        · rintro (h | ⟨_, hid⟩ | ⟨hF, _⟩)
          · exact Or.inl h
          · exact Or.inr hid.symm
          · exact absurd hF (by simp)
      | false =>
        rw [if_neg (by simp)]
        cases hl : a.linkedId with
        | none =>
          rw [show truthyId none = false from rfl, if_neg (by simp)]
          constructor
          · exact Or.inl
          · rintro (h | ⟨hT, _⟩ | ⟨_, hlk, _⟩)
            · exact h
            · exact absurd hT (by simp)
            · exact absurd hlk (by simp)
        | some l =>
          by_cases hl0 : l = 0
          · rw [show truthyId (some l) = false by simp [truthyId, hl0], if_neg (by simp)]
            constructor
            · exact Or.inl
            · rintro (h | ⟨hT, _⟩ | ⟨_, hlk, hne⟩)
              · exact h
              · exact absurd hT (by simp)
              · exact absurd ((Option.some_injective _ hlk) ▸ hl0) hne
          · rw [show truthyId (some l) = true by simp [truthyId, hl0], if_pos rfl,
              Option.getD_some, mem_setAdd]
            constructor
            · rintro (h | h)
              · exact Or.inl h
              · refine Or.inr (Or.inr ⟨rfl, by rw [h], ?_⟩)
                rw [h]
                exact hl0
            · rintro (h | ⟨hT, _⟩ | ⟨_, hlk, _⟩)
              · exact Or.inl h
              · exact absurd hT (by simp)
              · exact Or.inr (Option.some_injective _ hlk).symm
    rw [hstep]
    constructor
    · rintro ((h | h) | ⟨c, hc, hcc⟩)
      · exact Or.inl h
      · exact Or.inr ⟨a, List.mem_cons.mpr (Or.inl rfl), h⟩
      · exact Or.inr ⟨c, List.mem_cons.mpr (Or.inr hc), hcc⟩
    · rintro (h | ⟨c, hc, hcc⟩)
      · exact Or.inl (Or.inl h)
      · rcases List.mem_cons.mp hc with h' | h'
        · exact Or.inl (Or.inr (h' ▸ hcc))
        · exact Or.inr ⟨c, h', hcc⟩

theorem mem_primaryIdsOf {L : List Contact} {pid : Nat} :
    pid ∈ primaryIdsOf L ↔ ∃ c ∈ L,
      (isPrimaryC c = true ∧ c.id = pid) ∨
      (isPrimaryC c = false ∧ c.linkedId = some pid ∧ pid ≠ 0) := by
  unfold primaryIdsOf
  rw [mem_primaryIdsOf_aux]
  simp

theorem primary_mem_pids {L : List Contact} {c : Contact} (hc : c ∈ L)
    (hp : isPrimaryC c = true) : c.id ∈ primaryIdsOf L :=
  mem_primaryIdsOf.mpr ⟨c, hc, Or.inl ⟨hp, rfl⟩⟩

theorem secondary_mem_pids {L : List Contact} {c : Contact} (hc : c ∈ L)
    (hs : isPrimaryC c = false) {pid : Nat} (hl : c.linkedId = some pid) (hpos : pid ≠ 0) :
    pid ∈ primaryIdsOf L :=
  mem_primaryIdsOf.mpr ⟨c, hc, Or.inr ⟨hs, hl, hpos⟩⟩

/-- Each discovered primary id belongs to an actual primary row of the
store: a matched primary contributes its own id, and a matched secondary
contributes its `linkedId`, which points at a primary by the invariant. -/

theorem pids_sub {s : Store} (h : WF s) {e p : Option String} {pid : Nat}
    (hpid : pid ∈ primaryIdsOf (findMatchingContacts s e p)) :
    ∃ P ∈ s.contacts, P.id = pid ∧ P.linkPrecedence = LinkPrecedence.primary := by
  rcases mem_primaryIdsOf.mp hpid with ⟨c, hc, hcc⟩
  have hcs : c ∈ s.contacts := matching_sub h hc
  rcases hcc with ⟨hP, hid⟩ | ⟨hS, hlk, _⟩
  · exact ⟨c, hcs, hid, isPrimaryC_iff.mp hP⟩
  · rcases h.secLink c hcs (isPrimaryC_false_iff.mp hS) with ⟨P, hPs, hPl, hPp⟩
    refine ⟨P, hPs, ?_, hPp⟩
    rw [hlk] at hPl
    exact (Option.some_injective _ hPl).symm

theorem mem_clusterOf {s : Store} {matched : List Contact} {c : Contact} :
    c ∈ clusterOf s matched ↔ c ∈ s.contacts ∧ (c ∈ matched ∨ c.id ∈ primaryIdsOf matched ∨
      ∃ l, c.linkedId = some l ∧ l ∈ primaryIdsOf matched) := by
  unfold clusterOf
  rw [List.mem_filter]
  simp

/-- `collectFullCluster` on the matched contacts equals the `clusterOf`
filter of the store: same members, and both are `createdAt`-sorted. -/

theorem collect_eq {s : Store} (h : WF s) (e p : Option String) :
    collectFullCluster s (findMatchingContacts s e p) =
      clusterOf s (findMatchingContacts s e p) := by
  have hsub : ∀ c ∈ findMatchingContacts s e p, c ∈ s.contacts := fun c hc => matching_sub h hc
  have hinv0 : MapInv s ((findMatchingContacts s e p).foldl (fun m c => mapSet m c.id c) []) :=
    foldl_mapSet_inv _ hsub [] (fun kv hkv => absurd hkv (List.not_mem_nil kv))
  have hknd0 : (mapKeys ((findMatchingContacts s e p).foldl
      (fun m c => mapSet m c.id c) [])).Nodup :=
    foldl_mapSet_keys_nodup _ [] List.nodup_nil
  have hinv1 : MapInv s ((primaryIdsOf (findMatchingContacts s e p)).foldl (collectStep s)
      ((findMatchingContacts s e p).foldl (fun m c => mapSet m c.id c) [])) :=
    foldl_collectStep_inv h.notDeleted _ hinv0
  have hknd1 : (mapKeys ((primaryIdsOf (findMatchingContacts s e p)).foldl (collectStep s)
      ((findMatchingContacts s e p).foldl (fun m c => mapSet m c.id c) []))).Nodup :=
    foldl_collectStep_keys_nodup _ hknd0
  show sortByCreated (((primaryIdsOf (findMatchingContacts s e p)).foldl (collectStep s)
      ((findMatchingContacts s e p).foldl (fun m c => mapSet m c.id c) [])).map Prod.snd) = _
  have hclsub : (clusterOf s (findMatchingContacts s e p)).Sublist s.contacts :=
    List.filter_sublist _
  apply sortByCreated_eq_of_perm_of_lt
  · rw [List.perm_ext_iff_of_nodup (values_nodup hknd1 hinv1)
      (List.Nodup.sublist hclsub (nodup_of_pairwise_lt h.sortedLT))]
    intro v
    rw [values_mem_iff h.idsNodup hinv1, mem_clusterOf, foldl_collectStep_keys h.notDeleted,
      foldl_mapSet_keys]
    constructor
    · rintro ⟨hv, hk⟩
      refine ⟨hv, ?_⟩
      rcases hk with hk | hk
      · simp only [mapKeys, List.map_nil, List.not_mem_nil, false_or] at hk
        rcases hk with ⟨c, hc, hcid⟩
        exact Or.inl (List.inj_on_of_nodup_map h.idsNodup (hsub c hc) hv hcid ▸ hc)
      · rcases hk with ⟨pid, hpid, ⟨hvp, _⟩ | ⟨c, hc, hcl, hcid⟩⟩
        · exact Or.inr (Or.inl (hvp ▸ hpid))
        · have hcv : c = v := List.inj_on_of_nodup_map h.idsNodup hc hv hcid
          exact Or.inr (Or.inr ⟨pid, hcv ▸ hcl, hpid⟩)
    · rintro ⟨hv, hm | hid | ⟨l, hlk, hlp⟩⟩
      · exact ⟨hv, Or.inl (by simp only [mapKeys, List.map_nil, List.not_mem_nil, false_or]; exact ⟨v, hm, rfl⟩)⟩
      · exact ⟨hv, Or.inr ⟨v.id, hid, Or.inl ⟨rfl, v, hv, rfl⟩⟩⟩
      · exact ⟨hv, Or.inr ⟨l, hlp, Or.inr ⟨v, hv, hlk, rfl⟩⟩⟩
  · exact List.Pairwise.sublist hclsub h.sortedLT

theorem mem_collect {s : Store} (h : WF s) {e p : Option String} {c : Contact} :
    c ∈ collectFullCluster s (findMatchingContacts s e p) ↔
      c ∈ s.contacts ∧ (c ∈ findMatchingContacts s e p ∨
        c.id ∈ primaryIdsOf (findMatchingContacts s e p) ∨
        ∃ l, c.linkedId = some l ∧ l ∈ primaryIdsOf (findMatchingContacts s e p)) := by
  rw [collect_eq h, mem_clusterOf]

/-- The primaries of the collected cluster are exactly the store rows whose
id is a discovered primary id (each discovered id names a primary row, and
a primary row of the cluster was necessarily discovered). -/

theorem prims_eq {s : Store} (h : WF s) (e p : Option String) :
    (collectFullCluster s (findMatchingContacts s e p)).filter isPrimaryC =
      s.contacts.filter (fun c => decide (c.id ∈ primaryIdsOf (findMatchingContacts s e p))) := by
  rw [collect_eq h]
  unfold clusterOf
  rw [List.filter_filter]
  apply List.filter_congr
  intro c hc
  by_cases hid : c.id ∈ primaryIdsOf (findMatchingContacts s e p)
  · rcases pids_sub h hid with ⟨P, hPs, hPid, hPp⟩
    have hPc : P = c := h.idInj hPs hc hPid
    have hprim : isPrimaryC c = true := isPrimaryC_iff.mpr (hPc ▸ hPp)
    simp [hid, hprim]
  · cases hprim : isPrimaryC c with
    | false => simp [hid, hprim]
    | true =>
      have h1 : c ∉ findMatchingContacts s e p := fun hm => hid (primary_mem_pids hm hprim)
      have h2 : c.linkedId = none := h.primNoLink c hc (isPrimaryC_iff.mp hprim)
      simp [hid, hprim, h1, h2]

/-- With a non-empty match set, the collected cluster holds at least one
primary. -/

theorem prims_ne_nil {s : Store} (h : WF s) {e p : Option String}
    (hne : findMatchingContacts s e p ≠ []) :
    s.contacts.filter
      (fun c => decide (c.id ∈ primaryIdsOf (findMatchingContacts s e p))) ≠ [] := by
  rcases List.exists_mem_of_ne_nil _ hne with ⟨m, hm⟩
  have hms : m ∈ s.contacts := matching_sub h hm
  have hex : ∃ pid, pid ∈ primaryIdsOf (findMatchingContacts s e p) := by
    cases hP : isPrimaryC m with
    | true => exact ⟨m.id, primary_mem_pids hm hP⟩
    | false =>
      rcases h.secLink m hms (isPrimaryC_false_iff.mp hP) with ⟨P, hPs, hPl, _⟩
      exact ⟨P.id, secondary_mem_pids hm hP hPl (Nat.pos_iff_ne_zero.mp (h.idPos P hPs))⟩
  rcases hex with ⟨pid, hpid⟩
  rcases pids_sub h hpid with ⟨P, hPs, hPid, _⟩
  intro hnil
  have hPin : P ∈ s.contacts.filter
      (fun c => decide (c.id ∈ primaryIdsOf (findMatchingContacts s e p))) :=
    List.mem_filter.mpr ⟨hPs, by simp [hPid ▸ hpid]⟩
  rw [hnil] at hPin
  exact List.not_mem_nil P hPin

/-- Facts about the members of the primaries list. -/

theorem prims_mem {s : Store} (h : WF s) {e p : Option String} {Pr : Contact} {rest : List Contact}
    (hprims : s.contacts.filter
      (fun c => decide (c.id ∈ primaryIdsOf (findMatchingContacts s e p))) = Pr :: rest) :
    ∀ q ∈ Pr :: rest, q ∈ s.contacts ∧ q.linkPrecedence = LinkPrecedence.primary ∧
      q.linkedId = none := by
  intro q hq
  rw [← hprims] at hq
  rcases List.mem_filter.mp hq with ⟨hqs, hqd⟩
  have hqid : q.id ∈ primaryIdsOf (findMatchingContacts s e p) := by simpa using hqd
  rcases pids_sub h hqid with ⟨P, hPs, hPid, hPp⟩
  have hPq : P = q := h.idInj hPs hqs hPid
  have hqp : q.linkPrecedence = LinkPrecedence.primary := hPq ▸ hPp
  exact ⟨hqs, hqp, h.primNoLink q hqs hqp⟩

/-- Evaluation of `resolvePrimary` on the collected cluster: the head of
the primaries list wins and the remaining primaries are demoted, the
store mutating pointwise by `demoteF`. -/

theorem resolve_eval {s : Store} (h : WF s) {e p : Option String} {Pr : Contact}
    {rest : List Contact}
    (hprims : s.contacts.filter
      (fun c => decide (c.id ∈ primaryIdsOf (findMatchingContacts s e p))) = Pr :: rest) :
    resolvePrimary s (collectFullCluster s (findMatchingContacts s e p)) =
      (some Pr, { s with contacts := s.contacts.map (demoteF Pr.id (rest.map Contact.id)) }) := by
  have hfp : (collectFullCluster s (findMatchingContacts s e p)).filter isPrimaryC
      = Pr :: rest := (prims_eq h e p).trans hprims
  have hsubl : (Pr :: rest).Sublist s.contacts := hprims ▸ List.filter_sublist s.contacts
  have hPnodup : ((Pr :: rest).map Contact.id).Nodup :=
    List.Nodup.sublist (hsubl.map Contact.id) h.idsNodup
  have hmemprim := prims_mem h hprims
  simp only [resolvePrimary]
  rw [hfp]
  cases rest with
  | nil =>
    rw [if_pos (by simp)]
    have hs : { s with contacts := s.contacts.map (demoteF Pr.id (List.map Contact.id [])) }
        = s := by
      have : s.contacts.map (demoteF Pr.id (List.map Contact.id [])) = s.contacts := by
        rw [List.map_nil, List.map_congr_left (fun c _ => demoteF_nil Pr.id c), List.map_id']
      rw [this]
    rw [hs]
    rfl
  | cons r2 rest2 =>
    rw [if_neg (by simp [List.length_cons])]
    have hsorted : (Pr :: r2 :: rest2).Pairwise createdLT :=
      List.Pairwise.sublist hsubl h.sortedLT
    rw [sortByCreated_eq_self_of_lt hsorted]
    rw [List.map_cons] at hPnodup
    rcases List.nodup_cons.mp hPnodup with ⟨hPrnot, hrestnd⟩
    have hfold := demote_foldl Pr.id (r2 :: rest2) s h.idsNodup h.notDeleted
      hrestnd
      (by
        intro np hnp
        rcases hmemprim np (List.mem_cons.mpr (Or.inr hnp)) with ⟨h1, _, h3⟩
        exact ⟨h1, h3⟩)
      hPrnot
    show (some Pr, (r2 :: rest2).foldl (fun st np => demoteOne st Pr.id np) s) = _
    rw [hfold]

/-- Trichotomy for the pointwise demotion function. -/

theorem demoteF_cases (oid : Nat) (ids : List Nat) (c : Contact) :
    (c.id ∈ ids ∧ demoteF oid ids c
      = { c with linkPrecedence := LinkPrecedence.secondary, linkedId := some oid }) ∨
    (c.id ∉ ids ∧ ∃ l, c.linkedId = some l ∧ l ∈ ids ∧
      demoteF oid ids c = { c with linkedId := some oid }) ∨
    (c.id ∉ ids ∧ (∀ l, c.linkedId = some l → l ∉ ids) ∧ demoteF oid ids c = c) := by
  by_cases hid : c.id ∈ ids
  · exact Or.inl ⟨hid, by rw [demoteF, if_pos hid]⟩
  · cases hl : c.linkedId with
    | none =>
      refine Or.inr (Or.inr ⟨hid, ?_, ?_⟩)
      · intro l hll
        exact absurd hll (by simp)
      · simp [demoteF, hid, hl]
    | some l =>
      by_cases hlin : l ∈ ids
      · refine Or.inr (Or.inl ⟨hid, l, rfl, hlin, ?_⟩)
        simp [demoteF, hid, hl, hlin]
      · refine Or.inr (Or.inr ⟨hid, ?_, ?_⟩)
        · intro l' hll'
          exact (Option.some_injective _ hll') ▸ hlin
        · simp [demoteF, hid, hl, hlin]

theorem demote_nil_store (s : Store) (oid : Nat) :
    { s with contacts := s.contacts.map (demoteF oid (([] : List Contact).map Contact.id)) }
      = s := by
  have hmap : s.contacts.map (demoteF oid (([] : List Contact).map Contact.id)) = s.contacts := by
    rw [List.map_nil, List.map_congr_left (fun c _ => demoteF_nil oid c), List.map_id']
  rw [hmap]

/-- A contact that is neither demoted nor re-pointed survives the demotion
pass unchanged. -/

theorem demoteF_untouched {oid : Nat} {ids : List Nat} {c : Contact}
    (hid : c.id ∉ ids) (hlk : ∀ l, c.linkedId = some l → l ∉ ids) :
    demoteF oid ids c = c := by
  rcases demoteF_cases oid ids c with ⟨h1, _⟩ | ⟨_, l, hl, hlin, _⟩ | ⟨_, _, h3⟩
  · exact absurd h1 hid
  · exact absurd hlin (hlk l hl)
  · exact h3

/-- Well-formedness survives the demotion pass: demoted primaries link to
the surviving primary, re-pointed secondaries link to it as well, and the
surviving primary itself is untouched. -/

theorem WF_demoted {s : Store} (h : WF s) {Pr : Contact} {rest : List Contact}
    (hmem : ∀ q ∈ Pr :: rest, q ∈ s.contacts ∧ q.linkPrecedence = LinkPrecedence.primary ∧
      q.linkedId = none)
    (hnodup : ((Pr :: rest).map Contact.id).Nodup) :
    WF { s with contacts := s.contacts.map (demoteF Pr.id (rest.map Contact.id)) } := by
  have hPrnot : Pr.id ∉ rest.map Contact.id := by
    rw [List.map_cons] at hnodup
    exact (List.nodup_cons.mp hnodup).1
  have hPrfix : demoteF Pr.id (rest.map Contact.id) Pr = Pr :=
    demoteF_untouched hPrnot (fun l hll =>
      absurd ((hmem Pr (List.mem_cons.mpr (Or.inl rfl))).2.2 ▸ hll) (by simp))
  have hPrmem : Pr ∈ s.contacts.map (demoteF Pr.id (rest.map Contact.id)) := by
    have hmm := List.mem_map_of_mem (demoteF Pr.id (rest.map Contact.id))
      (hmem Pr (List.mem_cons.mpr (Or.inl rfl))).1
    rw [hPrfix] at hmm
    exact hmm
  have hidmem : ∀ {x : Nat}, x ∈ rest.map Contact.id →
      ∃ np ∈ s.contacts, np.id = x ∧ np.linkPrecedence = LinkPrecedence.primary ∧
        np.linkedId = none := by
    intro x hx
    rcases List.mem_map.mp hx with ⟨np, hnp, hnpid⟩
    rcases hmem np (List.mem_cons.mpr (Or.inr hnp)) with ⟨h1, h2, h3⟩
    exact ⟨np, h1, hnpid, h2, h3⟩
  refine ⟨?_, ?_, h.nextIdPos, ?_, ?_, ?_⟩
  · rw [List.pairwise_map]
    refine h.sortedLT.imp ?_
    intro a b hab
    show (demoteF _ _ a).createdAt < (demoteF _ _ b).createdAt
    rw [(demoteF_fields _ _ a).2.2.1, (demoteF_fields _ _ b).2.2.1]
    exact hab
  · rw [map_id_of_map_demoteF]
    exact h.idsNodup
  · intro c' hc'
    rcases List.mem_map.mp hc' with ⟨c, hc, hceq⟩
    subst hceq
    rcases h.bounds c hc with ⟨b1, b2, b3, b4⟩
    rw [demoteF_id, (demoteF_fields _ _ c).2.2.1, (demoteF_fields _ _ c).2.2.2]
    exact ⟨b1, b2, b3, b4⟩
  · intro c' hc' hp'
    rcases List.mem_map.mp hc' with ⟨c, hc, hceq⟩
    subst hceq
    rcases demoteF_cases Pr.id (rest.map Contact.id) c with
      ⟨_, he⟩ | ⟨_, l, hl, _, he⟩ | ⟨_, _, he⟩
    · rw [he] at hp' ⊢
      exact absurd hp' (by simp)
    · rw [he] at hp'
      have hcp : c.linkPrecedence = LinkPrecedence.primary := hp'
      have := h.primNoLink c hc hcp
      rw [this] at hl
      exact absurd hl (by simp)
    · rw [he] at hp' ⊢
      exact h.primNoLink c hc hp'
  · intro c' hc' hs'
    rcases List.mem_map.mp hc' with ⟨c, hc, hceq⟩
    subst hceq
    rcases demoteF_cases Pr.id (rest.map Contact.id) c with
      ⟨_, he⟩ | ⟨_, l, hl, _, he⟩ | ⟨hid, hlk, he⟩
    · rw [he]
      exact ⟨Pr, hPrmem, rfl, (hmem Pr (List.mem_cons.mpr (Or.inl rfl))).2.1⟩
    · rw [he]
      exact ⟨Pr, hPrmem, rfl, (hmem Pr (List.mem_cons.mpr (Or.inl rfl))).2.1⟩
    · rw [he] at hs' ⊢
      rcases h.secLink c hc hs' with ⟨P, hPs, hPl, hPp⟩
      have hPid : P.id ∉ rest.map Contact.id := by
        intro habs
        rcases hidmem habs with ⟨np, hnps, hnpid, hnpp, _⟩
        have : np = P := h.idInj hnps hPs hnpid
        have hPsec : c.linkedId = some P.id := hPl
        exact (hlk P.id hPsec) habs
      have hPfix : demoteF Pr.id (rest.map Contact.id) P = P :=
        demoteF_untouched hPid (by
          intro l hll
          rw [h.primNoLink P hPs hPp] at hll
          exact absurd hll (by simp))
      have hPm := List.mem_map_of_mem (demoteF Pr.id (rest.map Contact.id)) hPs
      rw [hPfix] at hPm
      exact ⟨P, hPm, hPl, hPp⟩

theorem createContact_contacts (s : Store) (d : CreateData) :
    (createContact s d).2.contacts = s.contacts ++ [(createContact s d).1] := rfl

theorem createContact_fst (s : Store) (d : CreateData) :
    (createContact s d).1 =
      { id := s.nextId, email := d.email, phoneNumber := d.phoneNumber, linkedId := d.linkedId,
        linkPrecedence := d.linkPrecedence, createdAt := s.now, deletedAt := none } := rfl

/-- Creation preserves well-formedness: the new row takes the fresh id and
the current clock, and it either is a primary with no link or links to an
existing primary. -/

theorem WF_create {s : Store} (h : WF s) (d : CreateData)
    (hsec : d.linkPrecedence = LinkPrecedence.secondary →
      ∃ l P, d.linkedId = some l ∧ P ∈ s.contacts ∧ l = P.id ∧
        P.linkPrecedence = LinkPrecedence.primary)
    (hprim : d.linkPrecedence = LinkPrecedence.primary → d.linkedId = none) :
    WF (createContact s d).2 := by
  refine ⟨?_, ?_, ?_, ?_, ?_, ?_⟩
  · rw [createContact_contacts, List.pairwise_append]
    refine ⟨h.sortedLT, List.pairwise_singleton _ _, ?_⟩
    intro a ha b hb
    rw [List.mem_singleton.mp hb, createContact_fst]
    exact (h.bounds a ha).2.2.1
  · rw [createContact_contacts, List.map_append, List.nodup_append]
    refine ⟨h.idsNodup, by simp, ?_⟩
    intro x hx hy
    rcases List.mem_map.mp hx with ⟨a, ha, hax⟩
    rw [List.map_singleton, createContact_fst] at hy
    have hxe : x = s.nextId := List.mem_singleton.mp hy
    have hlt := (h.bounds a ha).2.1
    rw [hax, hxe] at hlt
    exact Nat.lt_irrefl _ hlt
  · show 0 < s.nextId + 1
    exact Nat.succ_pos _
  · intro c hc
    rw [createContact_contacts] at hc
    rcases List.mem_append.mp hc with hc | hc
    · rcases h.bounds c hc with ⟨b1, b2, b3, b4⟩
      exact ⟨b1, Nat.lt_succ_of_lt b2, Nat.lt_succ_of_lt b3, b4⟩
    · rw [List.mem_singleton.mp hc, createContact_fst]
      exact ⟨h.nextIdPos, Nat.lt_succ_self _, Nat.lt_succ_self _, rfl⟩
  · intro c hc hp
    rw [createContact_contacts] at hc
    rcases List.mem_append.mp hc with hc | hc
    · exact h.primNoLink c hc hp
    · rw [List.mem_singleton.mp hc, createContact_fst] at hp ⊢
      exact hprim hp
  · intro c hc hs'
    rw [createContact_contacts] at hc
    rcases List.mem_append.mp hc with hc | hc
    · rcases h.secLink c hc hs' with ⟨P, hPs, hPl, hPp⟩
      exact ⟨P, by rw [createContact_contacts]; exact List.mem_append.mpr (Or.inl hPs), hPl, hPp⟩
    · rw [List.mem_singleton.mp hc, createContact_fst] at hs' ⊢
      have hs2 : d.linkPrecedence = LinkPrecedence.secondary := hs'
      rcases hsec hs2 with ⟨l, P, hd, hPs, hlP, hPp⟩
      refine ⟨P, by rw [createContact_contacts]; exact List.mem_append.mpr (Or.inl hPs), ?_, hPp⟩
      show d.linkedId = some P.id
      rw [hd, hlP]

/-- With at least one truthy input, `createSecondaryIfNeeded` reduces to:
skip when the exact combination already exists, else create. -/

theorem createSec_eval (s1 : Store) (cluster : List Contact) (Pr : Contact)
    (e p : Option String) (ht : (truthy e || truthy p) = true) :
    createSecondaryIfNeeded s1 cluster Pr e p =
      if comboExists (Pr :: cluster) e p then s1
      else (createContact s1 (secondaryData e p Pr.id)).2 := by
  simp only [createSecondaryIfNeeded]
  by_cases hc : comboExists (Pr :: cluster) e p = true
  · rw [if_pos hc, if_pos hc]
  · have hcb : comboExists (Pr :: cluster) e p = false := by
      rwa [Bool.not_eq_true] at hc
    rw [if_neg hc, if_neg hc, if_pos (by rw [hcb, ht]; simp)]
    rfl

theorem identify_match {s : Store} {e p : Option String}
    (hne : findMatchingContacts s e p ≠ []) :
    identify s e p = handleMatch s (findMatchingContacts s e p) e p := by
  simp only [identify]
  rw [if_neg (by simpa [List.isEmpty_iff] using hne)]

theorem identify_nomatch {s : Store} {e p : Option String}
    (hm : findMatchingContacts s e p = []) :
    identify s e p = some (handleNoMatch s e p) := by
  simp only [identify]
  rw [if_pos (by simp [hm])]

/-- Full evaluation of the matched branch: resolve the primary, demote the
losing primaries pointwise, create the secondary unless the combination
exists, and answer from the refreshed cluster. -/

theorem handleMatch_eval {s : Store} (h : WF s) {e p : Option String}
    (hne : findMatchingContacts s e p ≠ []) {Pr : Contact} {rest : List Contact}
    (hprims : s.contacts.filter
      (fun c => decide (c.id ∈ primaryIdsOf (findMatchingContacts s e p))) = Pr :: rest) :
    handleMatch s (findMatchingContacts s e p) e p =
      some (buildResponse Pr (refreshCluster
          (afterCreate (demotedStore s Pr.id (rest.map Contact.id)) Pr e p) Pr),
        afterCreate (demotedStore s Pr.id (rest.map Contact.id)) Pr e p) := by
  have ht := truthy_or_of_matching_ne hne
  simp only [handleMatch]
  rw [resolve_eval h hprims]
  show some (buildResponse Pr _, _) = _
  rw [show ({ s with contacts := s.contacts.map (demoteF Pr.id (rest.map Contact.id)) } : Store)
    = demotedStore s Pr.id (rest.map Contact.id) from rfl]
  rw [createSec_eval _ _ _ _ _ ht]
  rfl

theorem mem_refresh {s : Store} (h : WF s) {Pr c : Contact} :
    c ∈ refreshCluster s Pr ↔ c ∈ s.contacts ∧ c.linkedId = some Pr.id :=
  mem_findByPrimaryId h

theorem comboExists_of_mem {all : List Contact} {e p : Option String} {m : Contact}
    (hm : m ∈ all)
    (hc : ((!truthy e || m.email == e) && (!truthy p || m.phoneNumber == p)) = true) :
    comboExists all e p = true :=
  List.any_eq_true.mpr ⟨m, hm, hc⟩

theorem comboMatch_self {e p : Option String} {c : Contact}
    (he : c.email = e) (hp : c.phoneNumber = p) :
    ((!truthy e || c.email == e) && (!truthy p || c.phoneNumber == p)) = true := by
  simp [he, hp]

theorem comboMatch_matches {e p : Option String} {m : Contact}
    (ht : (truthy e || truthy p) = true)
    (hc : ((!truthy e || m.email == e) && (!truthy p || m.phoneNumber == p)) = true) :
    matchesInput e p m = true := by
  rcases Bool.or_eq_true _ _ |>.mp ht with hte | htp
  · rcases Bool.and_eq_true _ _ |>.mp hc with ⟨h1, _⟩
    rw [hte] at h1
    simp only [Bool.not_true, Bool.false_or] at h1
    unfold matchesInput
    rw [hte, h1]
    simp
  · rcases Bool.and_eq_true _ _ |>.mp hc with ⟨_, h2⟩
    rw [htp] at h2
    simp only [Bool.not_true, Bool.false_or] at h2
    unfold matchesInput
    rw [htp, h2]
    simp

/-- The no-match branch: a fresh primary is created carrying the inputs. -/

theorem post_nomatch {s : Store} (h : WF s) {e p : Option String}
    (hm : findMatchingContacts s e p = []) :
    ∃ resp s2 Pr, identify s e p = some (resp, s2) ∧ IdPost s e p resp s2 Pr ∧
      s2.contacts.length = s.contacts.length + 1 := by
  refine ⟨(handleNoMatch s e p).1, (handleNoMatch s e p).2,
    (createContact s (primaryData e p)).1, ?_, ?_, ?_⟩
  · rw [identify_nomatch hm]
  · have hwf2 : WF (handleNoMatch s e p).2 := by
      show WF (createContact s _).2
      refine WF_create h _ ?_ ?_
      · intro habs
        exact absurd habs (by simp)
      · intro _
        rfl
    have hnomatch : ∀ c ∈ s.contacts, ¬ matchesInput e p c = true := by
      by_cases ht : (truthy e || truthy p) = true
      · rw [findMatching_eq h ht] at hm
        exact List.filter_eq_nil_iff.mp hm
      · have hor : (truthy e || truthy p) = false := by rwa [Bool.not_eq_true] at ht
        have hte : truthy e = false := by
          cases hte' : truthy e
          · rfl
          · rw [hte'] at hor
            exact absurd hor (by simp)
        have htp : truthy p = false := by
          cases htp' : truthy p
          · rfl
          · rw [htp'] at hor
            exact absurd hor (by simp)
        intro c _
        unfold matchesInput
        rw [hte, htp]
        simp
    have hfresh : refreshCluster (handleNoMatch s e p).2
        (createContact s (primaryData e p)).1 = [] := by
      show findContactsByPrimaryId _ _ = []
      unfold findContactsByPrimaryId
      rw [show ∀ l, sortByCreated l = List.insertionSort createdLE l from fun _ => rfl]
      rw [List.filter_eq_nil_iff.mpr ?_]
      · rfl
      · intro a ha
        show ¬ (a.linkedId == some (s.nextId) && a.deletedAt == none) = true
        rcases List.mem_append.mp (by exact ha) with has | hanew
        · intro habs
          rcases Bool.and_eq_true _ _ |>.mp habs with ⟨h1, _⟩
          have h1' : a.linkedId = some s.nextId := by simpa using h1
          rcases precedence_cases a with hp' | hs'
          · rw [h.primNoLink a has hp'] at h1'
            exact absurd h1' (by simp)
          · rcases h.secLink a has hs' with ⟨P, hPs, hPl, _⟩
            rw [h1'] at hPl
            have : s.nextId = P.id := Option.some_injective _ hPl
            have hlt := (h.bounds P hPs).2.1
            rw [← this] at hlt
            exact Nat.lt_irrefl _ hlt
        · rw [List.mem_singleton.mp hanew]
          simp
    refine ⟨hwf2, ?_, rfl, ?_, ?_, ?_, ?_, ?_⟩
    · show _ ∈ s.contacts ++ [_]
      exact List.mem_append.mpr (Or.inr (List.mem_singleton.mpr rfl))
    · intro c hc hmc
      rcases List.mem_append.mp (by exact hc) with hcs | hcnew
      · exact absurd hmc (hnomatch c hcs)
      · refine Or.inl ?_
        rw [List.mem_singleton.mp hcnew]
        rfl
    · rw [hfresh]
      exact comboExists_of_mem (List.mem_cons.mpr (Or.inl rfl)) (comboMatch_self rfl rfl)
    · show buildResponse _ [] = _
      rw [hfresh]
      rfl
    · constructor
      · show s.contacts.length ≤ (s.contacts ++ [_]).length
        rw [List.length_append]
        exact Nat.le_add_right _ _
      · show (s.contacts ++ [_]).length ≤ s.contacts.length + 1
        rw [List.length_append]
        exact Nat.le_refl _
    · intro c hc
      rcases List.mem_append.mp (by exact hc) with hcs | hcnew
      · exact Or.inl ⟨c, hcs, rfl, rfl⟩
      · rw [List.mem_singleton.mp hcnew]
        exact Or.inr ⟨rfl, rfl⟩
  · show (s.contacts ++ [_]).length = s.contacts.length + 1
    rw [List.length_append]
    rfl

/-- The matched branch satisfies the post-conditions. -/

theorem post_match {s : Store} (h : WF s) {e p : Option String}
    (hne : findMatchingContacts s e p ≠ []) :
    ∃ resp s2 Pr, identify s e p = some (resp, s2) ∧ IdPost s e p resp s2 Pr := by
  have ht := truthy_or_of_matching_ne hne
  cases hp : s.contacts.filter
      (fun c => decide (c.id ∈ primaryIdsOf (findMatchingContacts s e p))) with
  | nil => exact absurd hp (prims_ne_nil h hne)
  | cons Pr rest =>
  have hmemprim := prims_mem h hp
  have hsubl : (Pr :: rest).Sublist s.contacts := hp ▸ List.filter_sublist s.contacts
  have hPnodup : ((Pr :: rest).map Contact.id).Nodup :=
    List.Nodup.sublist (hsubl.map Contact.id) h.idsNodup
  have hPnodup' := hPnodup
  rw [List.map_cons] at hPnodup'
  rcases List.nodup_cons.mp hPnodup' with ⟨hPrnot, hrestnd⟩
  have hPrS := hmemprim Pr (List.mem_cons.mpr (Or.inl rfl))
  have hwf1 : WF (demotedStore s Pr.id (rest.map Contact.id)) :=
    WF_demoted h hmemprim hPnodup
  have hPrfix : demoteF Pr.id (rest.map Contact.id) Pr = Pr :=
    demoteF_untouched hPrnot (by
      intro l hll
      rw [hPrS.2.2] at hll
      exact absurd hll (by simp))
  have hPr1 : Pr ∈ (demotedStore s Pr.id (rest.map Contact.id)).contacts := by
    show Pr ∈ s.contacts.map (demoteF Pr.id (rest.map Contact.id))
    have hmm := List.mem_map_of_mem (demoteF Pr.id (rest.map Contact.id)) hPrS.1
    rw [hPrfix] at hmm
    exact hmm
  have hlen1 : (demotedStore s Pr.id (rest.map Contact.id)).contacts.length
      = s.contacts.length := by
    show (s.contacts.map _).length = _
    rw [List.length_map]
  have habs1 : ∀ c1 ∈ (demotedStore s Pr.id (rest.map Contact.id)).contacts,
      matchesInput e p c1 = true → c1.id = Pr.id ∨ c1.linkedId = some Pr.id := by
    intro c1 hc1 hm1
    rcases List.mem_map.mp hc1 with ⟨c, hc, hceq⟩
    subst hceq
    have hmc : matchesInput e p c = true := by
      rw [← hm1]
      unfold matchesInput
      rw [(demoteF_fields _ _ c).1, (demoteF_fields _ _ c).2.1]
    have hcm : c ∈ findMatchingContacts s e p := (mem_findMatching h).mpr ⟨ht, hc, hmc⟩
    cases hcp : isPrimaryC c with
    | true =>
      have hcpids : c.id ∈ primaryIdsOf (findMatchingContacts s e p) :=
        primary_mem_pids hcm hcp
      have hcin : c ∈ Pr :: rest := by
        rw [← hp]
        exact List.mem_filter.mpr ⟨hc, by simp [hcpids]⟩
      rcases List.mem_cons.mp hcin with hceqPr | hcrest
      · refine Or.inl ?_
        rw [demoteF_id, hceqPr]
      · have hcidin : c.id ∈ rest.map Contact.id := List.mem_map_of_mem _ hcrest
        have hdem : demoteF Pr.id (rest.map Contact.id) c
            = { c with linkPrecedence := LinkPrecedence.secondary, linkedId := some Pr.id } := by
          rw [demoteF, if_pos hcidin]
        refine Or.inr ?_
        rw [hdem]
    | false =>
      have hsec : c.linkPrecedence = LinkPrecedence.secondary := isPrimaryC_false_iff.mp hcp
      rcases h.secLink c hc hsec with ⟨P, hPs, hPl, hPp⟩
      have hpid0 : P.id ≠ 0 := Nat.pos_iff_ne_zero.mp (h.idPos P hPs)
      have hpidin : P.id ∈ primaryIdsOf (findMatchingContacts s e p) :=
        secondary_mem_pids hcm hcp hPl hpid0
      have hPin : P ∈ Pr :: rest := by
        rw [← hp]
        exact List.mem_filter.mpr ⟨hPs, by simp [hpidin]⟩
      have hcnotrest : c.id ∉ rest.map Contact.id := by
        intro habs
        rcases List.mem_map.mp habs with ⟨np, hnp, hnpid⟩
        have hnpc : np = c :=
          h.idInj (hmemprim np (List.mem_cons.mpr (Or.inr hnp))).1 hc hnpid
        have hnpp := (hmemprim np (List.mem_cons.mpr (Or.inr hnp))).2.1
        rw [hnpc, hsec] at hnpp
        exact absurd hnpp (by simp)
      rcases List.mem_cons.mp hPin with hPeq | hPrest
      · have hcl : c.linkedId = some Pr.id := by rw [hPl, hPeq]
        have hfix : demoteF Pr.id (rest.map Contact.id) c = c :=
          demoteF_untouched hcnotrest (by
            intro l hll
            rw [hcl] at hll
            have hlid : l = Pr.id := (Option.some_injective _ hll).symm
            rw [hlid]
            exact hPrnot)
        refine Or.inr ?_
        rw [hfix, hcl]
      · have hPidrest : P.id ∈ rest.map Contact.id := List.mem_map_of_mem _ hPrest
        have hdem : demoteF Pr.id (rest.map Contact.id) c
            = { c with linkedId := some Pr.id } := by
          simp [demoteF, hcnotrest, hPl, hPidrest]
        refine Or.inr ?_
        rw [hdem]
  refine ⟨buildResponse Pr (refreshCluster
      (afterCreate (demotedStore s Pr.id (rest.map Contact.id)) Pr e p) Pr),
    afterCreate (demotedStore s Pr.id (rest.map Contact.id)) Pr e p, Pr, ?_, ?_⟩
  · rw [identify_match hne, handleMatch_eval h hne hp]
  · by_cases hcombo : comboExists
        (Pr :: refreshCluster (demotedStore s Pr.id (rest.map Contact.id)) Pr) e p = true
    · have hs2 : afterCreate (demotedStore s Pr.id (rest.map Contact.id)) Pr e p
          = demotedStore s Pr.id (rest.map Contact.id) := by
        unfold afterCreate
        rw [if_pos hcombo]
      rw [hs2]
      refine ⟨hwf1, hPr1, hPrS.2.1, habs1, hcombo, rfl, ?_, ?_⟩
      · rw [hlen1]
        exact ⟨Nat.le_refl _, Nat.le_succ _⟩
      · intro c1 hc1
        rcases List.mem_map.mp hc1 with ⟨c, hc, hceq⟩
        exact Or.inl ⟨c, hc, hceq ▸ (demoteF_fields _ _ c).1,
          hceq ▸ (demoteF_fields _ _ c).2.1⟩
    · have hs2 : afterCreate (demotedStore s Pr.id (rest.map Contact.id)) Pr e p
          = (createContact (demotedStore s Pr.id (rest.map Contact.id))
              (secondaryData e p Pr.id)).2 := by
        unfold afterCreate
        rw [if_neg hcombo]
      have hwf2 : WF (afterCreate (demotedStore s Pr.id (rest.map Contact.id)) Pr e p) := by
        rw [hs2]
        refine WF_create hwf1 _ ?_ ?_
        · intro _
          exact ⟨Pr.id, Pr, rfl, hPr1, rfl, hPrS.2.1⟩
        · intro habs
          exact absurd habs (by simp [secondaryData])
      have hnewmem : (createContact (demotedStore s Pr.id (rest.map Contact.id))
          (secondaryData e p Pr.id)).1
          ∈ (afterCreate (demotedStore s Pr.id (rest.map Contact.id)) Pr e p).contacts := by
        rw [hs2, createContact_contacts]
        exact List.mem_append.mpr (Or.inr (List.mem_singleton.mpr rfl))
      refine ⟨hwf2, ?_, hPrS.2.1, ?_, ?_, rfl, ?_, ?_⟩
      · rw [hs2, createContact_contacts]
        exact List.mem_append.mpr (Or.inl hPr1)
      · intro c1 hc1 hm1
        rw [hs2, createContact_contacts] at hc1
        rcases List.mem_append.mp hc1 with hc1 | hc1
        · exact habs1 c1 hc1 hm1
        · refine Or.inr ?_
          rw [List.mem_singleton.mp hc1]
          rfl
      · have hmemref : (createContact (demotedStore s Pr.id (rest.map Contact.id))
            (secondaryData e p Pr.id)).1
            ∈ refreshCluster (afterCreate (demotedStore s Pr.id (rest.map Contact.id)) Pr e p)
              Pr := by
          rw [mem_refresh hwf2]
          exact ⟨hnewmem, rfl⟩
        have hcm2 : ((!truthy e || (createContact (demotedStore s Pr.id (rest.map Contact.id))
            (secondaryData e p Pr.id)).1.email == e) &&
            (!truthy p || (createContact (demotedStore s Pr.id (rest.map Contact.id))
            (secondaryData e p Pr.id)).1.phoneNumber == p)) = true :=
          comboMatch_self rfl rfl
        exact comboExists_of_mem (List.mem_cons.mpr (Or.inr hmemref)) hcm2
      · rw [hs2, createContact_contacts, List.length_append, hlen1]
        exact ⟨Nat.le_succ _, Nat.le_refl _⟩
      · intro c1 hc1
        rw [hs2, createContact_contacts] at hc1
        rcases List.mem_append.mp hc1 with hc1 | hc1
        · rcases List.mem_map.mp hc1 with ⟨c, hc, hceq⟩
          exact Or.inl ⟨c, hc, hceq ▸ (demoteF_fields _ _ c).1,
            hceq ▸ (demoteF_fields _ _ c).2.1⟩
        · rw [List.mem_singleton.mp hc1]
          exact Or.inr ⟨rfl, rfl⟩

/-- Every completed call satisfies the post-conditions. -/

theorem identify_post {s : Store} (h : WF s) (e p : Option String) :
    ∃ resp s2 Pr, identify s e p = some (resp, s2) ∧ IdPost s e p resp s2 Pr := by
  by_cases hm : findMatchingContacts s e p = []
  · rcases post_nomatch h hm with ⟨resp, s2, Pr, h1, h2, _⟩
    exact ⟨resp, s2, Pr, h1, h2⟩
  · exact post_match h hm

theorem filter_id_eq :
    ∀ {l : List Contact}, (l.map Contact.id).Nodup → ∀ {Pr : Contact}, Pr ∈ l →
      l.filter (fun c => decide (c.id = Pr.id)) = [Pr] := by
  intro l
  induction l with
  | nil => intro _ Pr hPr; exact absurd hPr (List.not_mem_nil Pr)
  | cons a t ih =>
    intro hnd Pr hPr
    rw [List.map_cons] at hnd
    rcases List.nodup_cons.mp hnd with ⟨hna, hnt⟩
    by_cases hid : a.id = Pr.id
    · have haPr : a = Pr := by
        rcases List.mem_cons.mp hPr with h | h
        · exact h.symm
        · exact absurd (by rw [hid]; exact List.mem_map_of_mem Contact.id h) hna
      have hft : t.filter (fun c => decide (c.id = Pr.id)) = [] := by
        apply List.filter_eq_nil_iff.mpr
        intro b hb habs
        apply hna
        have hbid : b.id = Pr.id := by simpa using habs
        rw [hid, ← hbid]
        exact List.mem_map_of_mem Contact.id hb
      rw [List.filter_cons_of_pos (by simp [hid]), hft, haPr]
    · have hPrt : Pr ∈ t := by
        rcases List.mem_cons.mp hPr with h | h
        · exact absurd (by rw [h]) hid
        · exact h
      rw [List.filter_cons_of_neg (by simp [hid])]
      exact ih hnt hPrt

/-- A call on a store that already absorbed the inputs into the cluster of
`Pr` is a pure lookup: the single primary `Pr` is found, nothing mutates,
and the response is assembled from `Pr`'s cluster. -/

theorem identify_absorbed {s2 : Store} {e p : Option String} {Pr : Contact}
    (hwf : WF s2) (ht : (truthy e || truthy p) = true)
    (hPr : Pr ∈ s2.contacts) (hPp : Pr.linkPrecedence = LinkPrecedence.primary)
    (habs : ∀ c ∈ s2.contacts, matchesInput e p c = true →
      c.id = Pr.id ∨ c.linkedId = some Pr.id)
    (hcombo : comboExists (Pr :: refreshCluster s2 Pr) e p = true) :
    identify s2 e p = some (buildResponse Pr (refreshCluster s2 Pr), s2) := by
  rcases List.any_eq_true.mp hcombo with ⟨m, hm, hcm⟩
  have hms : m ∈ s2.contacts := by
    rcases List.mem_cons.mp hm with h | h
    · exact h ▸ hPr
    · exact ((mem_refresh hwf).mp h).1
  have hmm : matchesInput e p m = true := comboMatch_matches ht hcm
  have hmmatched : m ∈ findMatchingContacts s2 e p := (mem_findMatching hwf).mpr ⟨ht, hms, hmm⟩
  have hne : findMatchingContacts s2 e p ≠ [] := by
    intro hnil
    rw [hnil] at hmmatched
    exact List.not_mem_nil m hmmatched
  have hpids : ∀ pid, pid ∈ primaryIdsOf (findMatchingContacts s2 e p) ↔ pid = Pr.id := by
    intro pid
    constructor
    · intro hpid
      rcases mem_primaryIdsOf.mp hpid with ⟨c, hc, hcc⟩
      have hcs : c ∈ s2.contacts := matching_sub hwf hc
      have hcmatch : matchesInput e p c = true := ((mem_findMatching hwf).mp hc).2.2
      rcases hcc with ⟨hcp, hcid⟩ | ⟨hcp, hcl, _⟩
      · rcases habs c hcs hcmatch with h1 | h1
        · rw [← hcid, h1]
        · rw [hwf.primNoLink c hcs (isPrimaryC_iff.mp hcp)] at h1
          exact absurd h1 (by simp)
      · rcases habs c hcs hcmatch with h1 | h1
        · have hcPr : c = Pr := hwf.idInj hcs hPr h1
          have hPsec := isPrimaryC_false_iff.mp hcp
          rw [hcPr, hPp] at hPsec
          exact absurd hPsec (by simp)
        · rw [hcl] at h1
          exact Option.some_injective _ h1
    · intro hpid
      subst hpid
      cases hmp : isPrimaryC m with
      | true =>
        rcases habs m hms hmm with h1 | h1
        · exact h1 ▸ primary_mem_pids hmmatched hmp
        · rw [hwf.primNoLink m hms (isPrimaryC_iff.mp hmp)] at h1
          exact absurd h1 (by simp)
      | false =>
        rcases habs m hms hmm with h1 | h1
        · have hmPr : m = Pr := hwf.idInj hms hPr h1
          have hPsec := isPrimaryC_false_iff.mp hmp
          rw [hmPr, hPp] at hPsec
          exact absurd hPsec (by simp)
        · exact secondary_mem_pids hmmatched hmp h1
            (Nat.pos_iff_ne_zero.mp (hwf.idPos Pr hPr))
  have hprims : s2.contacts.filter
      (fun c => decide (c.id ∈ primaryIdsOf (findMatchingContacts s2 e p))) = [Pr] := by
    have hcg : s2.contacts.filter
        (fun c => decide (c.id ∈ primaryIdsOf (findMatchingContacts s2 e p)))
        = s2.contacts.filter (fun c => decide (c.id = Pr.id)) :=
      List.filter_congr (fun c _ => decide_eq_decide.mpr (hpids c.id))
    rw [hcg]
    exact filter_id_eq hwf.idsNodup hPr
  rw [identify_match hne, handleMatch_eval hwf hne hprims]
  have hs1 : demotedStore s2 Pr.id (([] : List Contact).map Contact.id) = s2 := by
    unfold demotedStore
    exact demote_nil_store s2 Pr.id
  rw [hs1]
  have hs2 : afterCreate s2 Pr e p = s2 := by
    unfold afterCreate
    rw [if_pos hcombo]
  rw [hs2]

/-- A completed call always satisfies the post-conditions for some primary. -/

theorem identify_bundle {s : Store} (h : WF s) {e p : Option String} {r : IdentifyResponse}
    {s2 : Store} (hid : identify s e p = some (r, s2)) : ∃ Pr, IdPost s e p r s2 Pr := by
  rcases identify_post h e p with ⟨r1, s1, Pr, heq, hpost⟩
  rw [heq] at hid
  simp only [Option.some.injEq, Prod.mk.injEq] at hid
  rcases hid with ⟨h1, h2⟩
  subst h1
  subst h2
  exact ⟨Pr, hpost⟩

/-- Well-formedness is preserved by every completed call. -/

theorem identify_WF {s : Store} (h : WF s) {e p : Option String} {r : IdentifyResponse}
    {s2 : Store} (hid : identify s e p = some (r, s2)) : WF s2 := by
  rcases identify_bundle h hid with ⟨Pr, hpost⟩
  exact hpost.wf

/-- Idempotence: repeating the identical call finds the absorbed cluster,
creates nothing, and returns the identical response on the same store. -/

theorem identify_idem {s : Store} (h : WF s) {e p : Option String}
    (ht : (truthy e || truthy p) = true) :
    ∃ r1 s1, identify s e p = some (r1, s1) ∧
      s1.contacts.length ≤ s.contacts.length + 1 ∧
      identify s1 e p = some (r1, s1) := by
  rcases identify_post h e p with ⟨r1, s1, Pr, heq, hpost⟩
  refine ⟨r1, s1, heq, hpost.grow.2, ?_⟩
  rw [identify_absorbed hpost.wf ht hpost.prMem hpost.prPrim hpost.absorb hpost.combo,
    ← hpost.respEq]

/-- In a well-formed store, the cluster of each primary holds exactly one
primary member. -/

theorem one_primary_per_cluster {s2 : Store} (hwf : WF s2) {P : Contact}
    (hP : P ∈ s2.contacts) (hPp : P.linkPrecedence = LinkPrecedence.primary) :
    (s2.contacts.filter (fun c => c.id == P.id || c.linkedId == some P.id)).countP isPrimaryC
      = 1 := by
  rw [List.countP_eq_length_filter, List.filter_filter]
  have hcg : s2.contacts.filter
      (fun a => isPrimaryC a && (a.id == P.id || a.linkedId == some P.id))
      = s2.contacts.filter (fun c => decide (c.id = P.id)) := by
    apply List.filter_congr
    intro c hc
    by_cases hcid : c.id = P.id
    · have hcP : c = P := hwf.idInj hc hP hcid
      simp [hcid, hcP, isPrimaryC, hPp]
    · cases hcp : isPrimaryC c with
      | true =>
        have := hwf.primNoLink c hc (isPrimaryC_iff.mp hcp)
        simp [hcid, this]
      | false => simp [hcid, hcp]
  rw [hcg, filter_id_eq hwf.idsNodup hP]
  rfl

theorem respStep_eq (acc : List String × List String × List Nat) (sec : Contact) :
    respStep acc sec = (emailStep acc.1 sec, phoneStep acc.2.1 sec, acc.2.2 ++ [sec.id]) := rfl

theorem respFold_decomp (secs : List Contact) :
    ∀ (es ps : List String) (ids : List Nat),
      secs.foldl respStep (es, ps, ids) =
        (secs.foldl emailStep es, secs.foldl phoneStep ps, ids ++ secs.map Contact.id) := by
  induction secs with
  | nil => intro es ps ids; simp
  | cons a t ih =>
    intro es ps ids
    rw [List.foldl_cons, respStep_eq, ih, List.foldl_cons, List.foldl_cons, List.map_cons]
    show (t.foldl emailStep (emailStep es a), t.foldl phoneStep (phoneStep ps a),
        ids ++ [a.id] ++ t.map Contact.id)
      = (t.foldl emailStep (emailStep es a), t.foldl phoneStep (phoneStep ps a),
        ids ++ a.id :: t.map Contact.id)
    rw [List.append_assoc]
    rfl

theorem emailFold_eq (secs : List Contact) :
    ∀ (es : List String), (∀ c ∈ secs, c.email ≠ some "") →
      secs.foldl emailStep es
        = (secs.flatMap (fun c => optToList c.email)).foldl addDistinct es := by
  induction secs with
  | nil => intro es _; simp
  | cons a t ih =>
    intro es hne
    rw [List.foldl_cons, List.flatMap_cons, List.foldl_append,
      ih _ (fun c hc => hne c (List.mem_cons.mpr (Or.inr hc)))]
    have hstep : emailStep es a = (optToList a.email).foldl addDistinct es := by
      cases ha : a.email with
      | none => simp [emailStep, ha, optToList]
      | some v =>
        have hv : v ≠ "" := by
          intro habs
          exact hne a (List.mem_cons.mpr (Or.inl rfl)) (by rw [ha, habs])
        by_cases hmem : v ∈ es
        · simp [emailStep, ha, optToList, addDistinct, hmem, hv, List.elem_iff]
        · simp [emailStep, ha, optToList, addDistinct, hmem, hv, List.elem_iff]
    rw [hstep]

theorem phoneFold_eq (secs : List Contact) :
    ∀ (ps : List String), (∀ c ∈ secs, c.phoneNumber ≠ some "") →
      secs.foldl phoneStep ps
        = (secs.flatMap (fun c => optToList c.phoneNumber)).foldl addDistinct ps := by
  induction secs with
  | nil => intro ps _; simp
  | cons a t ih =>
    intro ps hne
    rw [List.foldl_cons, List.flatMap_cons, List.foldl_append,
      ih _ (fun c hc => hne c (List.mem_cons.mpr (Or.inr hc)))]
    have hstep : phoneStep ps a = (optToList a.phoneNumber).foldl addDistinct ps := by
      cases ha : a.phoneNumber with
      | none => simp [phoneStep, ha, optToList]
      | some v =>
        have hv : v ≠ "" := by
          intro habs
          exact hne a (List.mem_cons.mpr (Or.inl rfl)) (by rw [ha, habs])
        by_cases hmem : v ∈ ps
        · simp [phoneStep, ha, optToList, addDistinct, hmem, hv, List.elem_iff]
        · simp [phoneStep, ha, optToList, addDistinct, hmem, hv, List.elem_iff]
    rw [hstep]

theorem addDistinct_nodup {es : List String} {x : String} (h : es.Nodup) :
    (addDistinct es x).Nodup := by
  unfold addDistinct
  by_cases hx : x ∈ es
  · rw [if_pos hx]
    exact h
  · rw [if_neg hx, List.nodup_append]
    exact ⟨h, List.nodup_singleton x, fun a ha hax => hx ((List.mem_singleton.mp hax) ▸ ha)⟩

theorem foldl_addDistinct_nodup (l : List String) :
    ∀ {es : List String}, es.Nodup → (l.foldl addDistinct es).Nodup := by
  induction l with
  | nil => intro es h; exact h
  | cons a t ih =>
    intro es h
    rw [List.foldl_cons]
    exact ih (addDistinct_nodup h)

theorem dedupFirstSeen_nodup (l : List String) : (dedupFirstSeen l).Nodup :=
  foldl_addDistinct_nodup l List.nodup_nil

theorem dedup_append_opt (x : Option String) (rest : List String) :
    dedupFirstSeen (optToList x ++ rest) = rest.foldl addDistinct (optToList x) := by
  unfold dedupFirstSeen
  rw [List.foldl_append]
  cases x with
  | none => rfl
  | some v => simp [optToList, addDistinct]

/-- Characterization of `buildResponse` in terms of first-seen
deduplication, when no stored field is the empty string (the boundary
never lets one in). -/

theorem buildResponse_spec (P : Contact) (secs : List Contact)
    (hPe : P.email ≠ some "") (hPph : P.phoneNumber ≠ some "")
    (hse : ∀ c ∈ secs, c.email ≠ some "") (hsp : ∀ c ∈ secs, c.phoneNumber ≠ some "") :
    buildResponse P secs =
      { primaryContactId := P.id,
        emails := dedupFirstSeen (optToList P.email
          ++ secs.flatMap (fun c => optToList c.email)),
        phoneNumbers := dedupFirstSeen (optToList P.phoneNumber
          ++ secs.flatMap (fun c => optToList c.phoneNumber)),
        secondaryContactIds := secs.map Contact.id } := by
  have hinit_e : pushIfTruthy [] P.email = optToList P.email := by
    cases hPe' : P.email with
    | none => rfl
    | some v =>
      have hv : v ≠ "" := fun habs => hPe (by rw [hPe', habs])
      simp [pushIfTruthy, optToList, hv]
  have hinit_p : pushIfTruthy [] P.phoneNumber = optToList P.phoneNumber := by
    cases hPp' : P.phoneNumber with
    | none => rfl
    | some v =>
      have hv : v ≠ "" := fun habs => hPph (by rw [hPp', habs])
      simp [pushIfTruthy, optToList, hv]
  simp only [buildResponse]
  rw [respFold_decomp, hinit_e, hinit_p, emailFold_eq secs _ hse, phoneFold_eq secs _ hsp,
    dedup_append_opt, dedup_append_opt]
  rfl

theorem demotedStore_contacts (s : Store) (oid : Nat) (ids : List Nat) :
    (demotedStore s oid ids).contacts = s.contacts.map (demoteF oid ids) := rfl

theorem falsy_split {e p : Option String} (hor : (truthy e || truthy p) = false) :
    truthy e = false ∧ truthy p = false := by
  cases hte : truthy e with
  | false =>
    cases htp : truthy p with
    | false => exact ⟨rfl, rfl⟩
    | true =>
      rw [hte, htp] at hor
      exact absurd hor (by simp)
  | true =>
    rw [hte] at hor
    exact absurd hor (by simp)

/-- A filter of a well-formed store that holds exactly two rows, the older
first. -/

theorem filter_pair_eq {s : Store} (h : WF s) {P1 P2 : Contact} (hP1 : P1 ∈ s.contacts)
    (hP2 : P2 ∈ s.contacts) (hlt : P1.createdAt < P2.createdAt) (q : Contact → Bool)
    (hq : ∀ c ∈ s.contacts, (q c = true ↔ (c = P1 ∨ c = P2))) :
    s.contacts.filter q = [P1, P2] := by
  have hnodup : (s.contacts.filter q).Nodup :=
    List.Nodup.sublist (List.filter_sublist _) (nodup_of_pairwise_lt h.sortedLT)
  have hne12 : P1 ≠ P2 := fun habs => absurd (habs ▸ hlt) (Nat.lt_irrefl _)
  have h12nodup : ([P1, P2] : List Contact).Nodup := by simp [hne12]
  have hperm : (s.contacts.filter q).Perm [P1, P2] := by
    rw [List.perm_ext_iff_of_nodup hnodup h12nodup]
    intro c
    rw [List.mem_filter]
    constructor
    · rintro ⟨hc, hqc⟩
      have := (hq c hc).mp hqc
      simpa using this
    · intro hc
      have hc' : c = P1 ∨ c = P2 := by simpa using hc
      rcases hc' with h' | h'
      · exact ⟨by rw [h']; exact hP1, (hq c (by rw [h']; exact hP1)).mpr (Or.inl h')⟩
      · exact ⟨by rw [h']; exact hP2, (hq c (by rw [h']; exact hP2)).mpr (Or.inr h')⟩
  refine List.eq_of_perm_of_sorted hperm
    (List.Pairwise.sublist (List.filter_sublist _) h.sortedLT) ?_
  exact List.pairwise_cons.mpr
    ⟨fun b hb => by rw [List.mem_singleton.mp hb]; exact hlt, List.pairwise_singleton _ _⟩

/-- C8: a request in which both email and phoneNumber are absent or empty is
rejected by the boundary with the 400-class validation message, for every
store, and the store is handed back untouched — no store read or write
happens. -/

theorem claim_C8 (s : Store) (e p : Option String)
    (he : e = none ∨ e = some "") (hp : p = none ∨ p = some "") :
    controllerIdentify s e p
      = (ControllerResult.badRequest "At least one of email or phoneNumber must be provided",
        s) := by
  have hte : truthy e = false := by rcases he with h | h <;> simp [h, truthy]
  have htp : truthy p = false := by rcases hp with h | h <;> simp [h, truthy]
  unfold controllerIdentify
  rw [if_pos (show (!truthy e && !truthy p) = true by rw [hte, htp]; rfl)]

theorem claim_C8_witness :
    controllerIdentify exStore (some "") none
      = (ControllerResult.badRequest "At least one of email or phoneNumber must be provided",
        exStore) :=
  claim_C8 exStore (some "") none (Or.inr rfl) (Or.inl rfl)

/-- C9: with a non-empty matched set on a well-formed store, the collected
cluster contains at least one primary, so the zero-primaries branch of
`resolvePrimary` is unreachable and it returns a defined contact. -/

theorem claim_C9 {s : Store} {e p : Option String} (h : WF s)
    (hne : findMatchingContacts s e p ≠ []) :
    (collectFullCluster s (findMatchingContacts s e p)).filter isPrimaryC ≠ [] ∧
    (resolvePrimary s (collectFullCluster s (findMatchingContacts s e p))).1.isSome = true := by
  constructor
  · rw [prims_eq h e p]
    exact prims_ne_nil h hne
  · cases hp : s.contacts.filter
        (fun c => decide (c.id ∈ primaryIdsOf (findMatchingContacts s e p))) with
    | nil => exact absurd hp (prims_ne_nil h hne)
    | cons Pr rest =>
      rw [resolve_eval h hp]
      rfl

theorem claim_C9_witness :
    (collectFullCluster exStore
      (findMatchingContacts exStore (some "a@x.com") none)).filter isPrimaryC ≠ [] ∧
    (resolvePrimary exStore (collectFullCluster exStore
      (findMatchingContacts exStore (some "a@x.com") none))).1.isSome = true :=
  claim_C9 (by decide) (by decide)

/-- C7: an input pair with at least one truthy field that matches no
existing non-deleted contact creates exactly one contact — a primary with
no link carrying the supplied fields and the fresh id — and the response
carries that contact's id with no secondary ids. -/

theorem claim_C7 {s : Store} {e p : Option String}
    (ht : (truthy e || truthy p) = true)
    (hm : ∀ c ∈ s.contacts, c.deletedAt = none → matchesInput e p c = false) :
    ∃ c s2, identify s e p = some (buildResponse c [], s2) ∧
      c.linkPrecedence = LinkPrecedence.primary ∧ c.linkedId = none ∧
      c.email = e ∧ c.phoneNumber = p ∧ c.id = s.nextId ∧
      s2.contacts = s.contacts ++ [c] ∧
      (buildResponse c []).primaryContactId = c.id ∧
      (buildResponse c []).secondaryContactIds = [] := by
  have hm' : findMatchingContacts s e p = [] := by
    unfold findMatchingContacts
    rw [if_pos ht]
    have hfil : s.contacts.filter (fun c =>
        ((truthy e && c.email == e) || (truthy p && c.phoneNumber == p))
          && c.deletedAt == none) = [] := by
      apply List.filter_eq_nil_iff.mpr
      intro c hc habs
      rcases Bool.and_eq_true _ _ |>.mp habs with ⟨h1, h2⟩
      have hdel : c.deletedAt = none := by simpa using h2
      have hmf := hm c hc hdel
      unfold matchesInput at hmf
      rw [hmf] at h1
      exact absurd h1 (by simp)
    rw [hfil]
    rfl
  refine ⟨(createContact s (primaryData e p)).1, (createContact s (primaryData e p)).2,
    ?_, rfl, rfl, rfl, rfl, rfl, rfl, rfl, rfl⟩
  rw [identify_nomatch hm']
  rfl

theorem claim_C7_witness :
    ∃ c s2, identify exEmpty (some "a@x.com") (some "111") = some (buildResponse c [], s2) ∧
      c.linkPrecedence = LinkPrecedence.primary ∧ c.linkedId = none ∧
      c.email = some "a@x.com" ∧ c.phoneNumber = some "111" ∧ c.id = exEmpty.nextId ∧
      s2.contacts = exEmpty.contacts ++ [c] ∧
      (buildResponse c []).primaryContactId = c.id ∧
      (buildResponse c []).secondaryContactIds = [] :=
  claim_C7 (by decide) (by decide)

/-- C4: after every completed call on a well-formed store the store stays
well-formed and every cluster — each primary together with the rows linked
to it — contains exactly one primary member. -/

theorem claim_C4 {s : Store} {e p : Option String} {r : IdentifyResponse} {s2 : Store}
    (h : WF s) (hid : identify s e p = some (r, s2)) :
    WF s2 ∧ ∀ P ∈ s2.contacts, P.linkPrecedence = LinkPrecedence.primary →
      (s2.contacts.filter (fun c => c.id == P.id || c.linkedId == some P.id)).countP
        isPrimaryC = 1 := by
  have hwf := identify_WF h hid
  exact ⟨hwf, fun P hP hPp => one_primary_per_cluster hwf hP hPp⟩

/-- C5: after a completed call on a well-formed store, every secondary's
`linkedId` names an existing contact whose precedence is primary — no
secondary ever points at a secondary, so link chains have depth one. -/

theorem claim_C5 {s : Store} {e p : Option String} {r : IdentifyResponse} {s2 : Store}
    (h : WF s) (hid : identify s e p = some (r, s2)) :
    ∀ c ∈ s2.contacts, c.linkPrecedence = LinkPrecedence.secondary →
      ∃ P ∈ s2.contacts, c.linkedId = some P.id ∧
        P.linkPrecedence = LinkPrecedence.primary :=
  (identify_WF h hid).secLink

/-- C3: on a well-formed store, calling `identify` twice with the identical
pair (at least one field truthy) creates at most one record in total: the
second call returns the identical response and leaves the store exactly as
the first call left it. -/

theorem claim_C3 {s : Store} {e p : Option String} (h : WF s)
    (ht : (truthy e || truthy p) = true) :
    ∃ r1 s1, identify s e p = some (r1, s1) ∧
      s1.contacts.length ≤ s.contacts.length + 1 ∧
      identify s1 e p = some (r1, s1) :=
  identify_idem h ht

theorem claim_C3_witness :
    ∃ r1 s1, identify exEmpty (some "a@x.com") (some "111") = some (r1, s1) ∧
      s1.contacts.length ≤ exEmpty.contacts.length + 1 ∧
      identify s1 (some "a@x.com") (some "111") = some (r1, s1) :=
  claim_C3 (by decide) (by decide)

/-- C1 (counterexample): in the cluster holding the primary
(`a@x.com`, `111`) and the secondary (`b@x.com`, `222`), the supplied pair
(`a@x.com`, `222`) has its email already present and its phone already
present on different members and its exact combination absent, yet
`createSecondaryIfNeeded` creates a new contact — refuting the claim that
no contact is created when both supplied identifiers already occur in the
cluster. -/

theorem claim_C1_counterexample :
    comboExists [exPrimary, exSecondary] (some "a@x.com") (some "222") = false ∧
    (∃ c ∈ [exPrimary, exSecondary], c.email = some "a@x.com") ∧
    (∃ c ∈ [exPrimary, exSecondary], c.phoneNumber = some "222") ∧
    (createSecondaryIfNeeded exStore [exSecondary] exPrimary (some "a@x.com") (some "222")
      ).contacts.length = exStore.contacts.length + 1 := by
  decide

/-- C1 (amended): when the exact supplied combination is absent from the
cluster, `createSecondaryIfNeeded` creates a new secondary if and only if
at least one identifier is truthy — even when both supplied values already
occur in the cluster on different members; the created row links to the
primary and carries the supplied fields. -/

theorem claim_C1_amended (s : Store) (cluster : List Contact) (primaryContact : Contact)
    (e p : Option String)
    (hcombo : comboExists (primaryContact :: cluster) e p = false) :
    ((createSecondaryIfNeeded s cluster primaryContact e p).contacts.length
        = s.contacts.length + 1 ↔ (truthy e || truthy p) = true) ∧
    ((truthy e || truthy p) = true →
      createSecondaryIfNeeded s cluster primaryContact e p
        = (createContact s (secondaryData e p primaryContact.id)).2) ∧
    ((truthy e || truthy p) = false →
      createSecondaryIfNeeded s cluster primaryContact e p = s) := by
  by_cases ht : (truthy e || truthy p) = true
  · have heval := createSec_eval s cluster primaryContact e p ht
    rw [hcombo] at heval
    rw [if_neg (by simp)] at heval
    refine ⟨?_, fun _ => heval, fun hf => ?_⟩
    · rw [heval, createContact_contacts, List.length_append]
      exact ⟨fun _ => ht, fun _ => rfl⟩
    · rw [ht] at hf
      exact absurd hf (by simp)
  · have hor : (truthy e || truthy p) = false := by rwa [Bool.not_eq_true] at ht
    rcases falsy_split hor with ⟨hte, htp⟩
    have heq : createSecondaryIfNeeded s cluster primaryContact e p = s := by
      simp only [createSecondaryIfNeeded]
      rw [if_neg (by rw [hcombo]; simp), if_neg (by rw [hcombo, hte, htp]; simp)]
    refine ⟨?_, fun htt => absurd htt ht, fun _ => heq⟩
    rw [heq, hor]
    constructor
    · intro habs
      omega
    · intro habs
      exact absurd habs (by simp)

theorem claim_C1_witness :
    (createSecondaryIfNeeded exStore [exSecondary] exPrimary (some "a@x.com") (some "222")
      ).contacts.length = exStore.contacts.length + 1 :=
  (claim_C1_amended exStore [exSecondary] exPrimary (some "a@x.com") (some "222")
    (by decide)).1.mpr (by decide)

theorem claim_C4_witness :
    WF exStore ∧ ∀ P ∈ exStore.contacts, P.linkPrecedence = LinkPrecedence.primary →
      (exStore.contacts.filter (fun c => c.id == P.id || c.linkedId == some P.id)).countP
        isPrimaryC = 1 :=
  claim_C4 (by decide) (show identify exStore (some "a@x.com") none
    = some (⟨1, ["a@x.com", "b@x.com"], ["111", "222"], [2]⟩, exStore) by decide)

theorem claim_C5_witness :
    ∃ P ∈ exStore.contacts, exSecondary.linkedId = some P.id ∧
      P.linkPrecedence = LinkPrecedence.primary :=
  claim_C5 (by decide) (show identify exStore (some "a@x.com") none
      = some (⟨1, ["a@x.com", "b@x.com"], ["111", "222"], [2]⟩, exStore) by decide)
    exSecondary (by decide) (by decide)

/-- C6: the response of a completed call is assembled from the resolved
primary and its post-merge cluster: `primaryContactId` is the primary's
id; `secondaryContactIds` lists every row linked to the primary — all of
them secondaries — in `createdAt`-ascending store order; `emails` and
`phoneNumbers` are the first-seen deduplication of the primary's value
followed by the cluster members' values in that same order, so both lists
are duplicate-free with the primary's value leading. Stated for stores
and inputs free of empty-string fields, which the boundary guarantees. -/

theorem claim_C6 {s : Store} {e p : Option String} {r : IdentifyResponse} {s2 : Store}
    (h : WF s)
    (hfe : ∀ c ∈ s.contacts, c.email ≠ some "" ∧ c.phoneNumber ≠ some "")
    (he : e ≠ some "") (hp : p ≠ some "")
    (hid : identify s e p = some (r, s2)) :
    ∃ Pr, Pr ∈ s2.contacts ∧ Pr.linkPrecedence = LinkPrecedence.primary ∧
      r.primaryContactId = Pr.id ∧
      refreshCluster s2 Pr = s2.contacts.filter (fun c => c.linkedId == some Pr.id) ∧
      (refreshCluster s2 Pr).Pairwise createdLE ∧
      (∀ c ∈ refreshCluster s2 Pr, c.linkPrecedence = LinkPrecedence.secondary) ∧
      r.secondaryContactIds = (refreshCluster s2 Pr).map Contact.id ∧
      r.emails = dedupFirstSeen (optToList Pr.email
        ++ (refreshCluster s2 Pr).flatMap (fun c => optToList c.email)) ∧
      r.phoneNumbers = dedupFirstSeen (optToList Pr.phoneNumber
        ++ (refreshCluster s2 Pr).flatMap (fun c => optToList c.phoneNumber)) ∧
      r.emails.Nodup ∧ r.phoneNumbers.Nodup := by
  rcases identify_bundle h hid with ⟨Pr, hpost⟩
  have hwf2 := hpost.wf
  have hfe2 : ∀ c ∈ s2.contacts, c.email ≠ some "" ∧ c.phoneNumber ≠ some "" := by
    intro c hc
    rcases hpost.fieldsFrom c hc with ⟨c0, hc0, he0, hp0⟩ | ⟨he0, hp0⟩
    · rw [he0, hp0]
      exact hfe c0 hc0
    · rw [he0, hp0]
      exact ⟨he, hp⟩
  have hrefresh_eq : refreshCluster s2 Pr
      = s2.contacts.filter (fun c => c.linkedId == some Pr.id) := findByPrimaryId_eq hwf2 Pr.id
  have hsorted : (refreshCluster s2 Pr).Pairwise createdLE := by
    rw [hrefresh_eq]
    exact (List.Pairwise.sublist (List.filter_sublist _) hwf2.sortedLT).imp createdLE_of_LT
  have hsec : ∀ c ∈ refreshCluster s2 Pr, c.linkPrecedence = LinkPrecedence.secondary := by
    intro c hc
    rcases (mem_refresh hwf2).mp hc with ⟨hcs, hcl⟩
    rcases precedence_cases c with hcp | hcp
    · rw [hwf2.primNoLink c hcs hcp] at hcl
      exact absurd hcl (by simp)
    · exact hcp
  have hmemsub : ∀ c ∈ refreshCluster s2 Pr, c ∈ s2.contacts :=
    fun c hc => ((mem_refresh hwf2).mp hc).1
  have hbr := buildResponse_spec Pr (refreshCluster s2 Pr)
    (hfe2 Pr hpost.prMem).1 (hfe2 Pr hpost.prMem).2
    (fun c hc => (hfe2 c (hmemsub c hc)).1) (fun c hc => (hfe2 c (hmemsub c hc)).2)
  refine ⟨Pr, hpost.prMem, hpost.prPrim, ?_, hrefresh_eq, hsorted, hsec, ?_, ?_, ?_, ?_, ?_⟩
  · rw [hpost.respEq, hbr]
  · rw [hpost.respEq, hbr]
  · rw [hpost.respEq, hbr]
  · rw [hpost.respEq, hbr]
  · rw [hpost.respEq, hbr]
    exact dedupFirstSeen_nodup _
  · rw [hpost.respEq, hbr]
    exact dedupFirstSeen_nodup _

theorem claim_C6_witness :
    ∃ Pr, Pr ∈ exStore.contacts ∧ Pr.linkPrecedence = LinkPrecedence.primary ∧
      (⟨1, ["a@x.com", "b@x.com"], ["111", "222"], [2]⟩ : IdentifyResponse).primaryContactId
        = Pr.id ∧
      refreshCluster exStore Pr
        = exStore.contacts.filter (fun c => c.linkedId == some Pr.id) ∧
      (refreshCluster exStore Pr).Pairwise createdLE ∧
      (∀ c ∈ refreshCluster exStore Pr, c.linkPrecedence = LinkPrecedence.secondary) ∧
      (⟨1, ["a@x.com", "b@x.com"], ["111", "222"], [2]⟩ : IdentifyResponse).secondaryContactIds
        = (refreshCluster exStore Pr).map Contact.id ∧
      (⟨1, ["a@x.com", "b@x.com"], ["111", "222"], [2]⟩ : IdentifyResponse).emails
        = dedupFirstSeen (optToList Pr.email
          ++ (refreshCluster exStore Pr).flatMap (fun c => optToList c.email)) ∧
      (⟨1, ["a@x.com", "b@x.com"], ["111", "222"], [2]⟩ : IdentifyResponse).phoneNumbers
        = dedupFirstSeen (optToList Pr.phoneNumber
          ++ (refreshCluster exStore Pr).flatMap (fun c => optToList c.phoneNumber)) ∧
      (⟨1, ["a@x.com", "b@x.com"], ["111", "222"], [2]⟩ : IdentifyResponse).emails.Nodup ∧
      (⟨1, ["a@x.com", "b@x.com"], ["111", "222"], [2]⟩ : IdentifyResponse).phoneNumbers.Nodup :=
  claim_C6 (by decide) (by decide) (by decide) (by decide)
    (show identify exStore (some "a@x.com") none
      = some (⟨1, ["a@x.com", "b@x.com"], ["111", "222"], [2]⟩, exStore) by decide)

/-- C2: merge picks the oldest primary. In a well-formed store holding two
independent primaries P1 (older) and P2 (newer) with disjoint identifiers
— P1 alone carries the supplied email and P2 alone carries the supplied
phone — the call matching both completes, the response's
`primaryContactId` is P1's id, P2 is demoted to a secondary linked to P1,
and every prior secondary of P2 is re-pointed to P1. -/

theorem claim_C2 {s : Store} {P1 P2 : Contact} {e p : String}
    (h : WF s) (hP1 : P1 ∈ s.contacts) (hP2 : P2 ∈ s.contacts)
    (hp1 : P1.linkPrecedence = LinkPrecedence.primary)
    (hp2 : P2.linkPrecedence = LinkPrecedence.primary)
    (hlt : P1.createdAt < P2.createdAt)
    (he : e ≠ "") (hp : p ≠ "")
    (hP1e : P1.email = some e) (hP2p : P2.phoneNumber = some p)
    (hde : ∀ c ∈ s.contacts, c.email = some e → c = P1)
    (hdp : ∀ c ∈ s.contacts, c.phoneNumber = some p → c = P2) :
    ∃ r s2, identify s (some e) (some p) = some (r, s2) ∧
      r.primaryContactId = P1.id ∧
      { P2 with linkPrecedence := LinkPrecedence.secondary, linkedId := some P1.id }
        ∈ s2.contacts ∧
      ∀ c ∈ s.contacts, c.linkedId = some P2.id →
        { c with linkedId := some P1.id } ∈ s2.contacts := by
  have hne12 : P1 ≠ P2 := fun habs => absurd (habs ▸ hlt) (Nat.lt_irrefl _)
  have hte : truthy (some e) = true := by simp [truthy, he]
  have htp : truthy (some p) = true := by simp [truthy, hp]
  have ht : (truthy (some e) || truthy (some p)) = true := by simp [hte]
  have hprim1 : isPrimaryC P1 = true := isPrimaryC_iff.mpr hp1
  have hprim2 : isPrimaryC P2 = true := isPrimaryC_iff.mpr hp2
  have hid_ne : P2.id ≠ P1.id := fun habs => hne12 (h.idInj hP2 hP1 habs).symm
  have hmatch : findMatchingContacts s (some e) (some p) = [P1, P2] := by
    rw [findMatching_eq h ht]
    apply filter_pair_eq h hP1 hP2 hlt
    intro c hc
    constructor
    · intro hm
      rcases Bool.or_eq_true _ _ |>.mp hm with h1 | h1
      · rcases Bool.and_eq_true _ _ |>.mp h1 with ⟨_, h2⟩
        exact Or.inl (hde c hc (by simpa using h2))
      · rcases Bool.and_eq_true _ _ |>.mp h1 with ⟨_, h2⟩
        exact Or.inr (hdp c hc (by simpa using h2))
    · rintro (rfl | rfl)
      · unfold matchesInput
        rw [hte, hP1e]
        simp
      · unfold matchesInput
        rw [htp, hP2p]
        simp
  have hids : primaryIdsOf [P1, P2] = [P1.id, P2.id] := by
    simp [primaryIdsOf, setAdd, hprim1, hprim2, hid_ne]
  have hprims : s.contacts.filter
      (fun c => decide (c.id ∈ primaryIdsOf (findMatchingContacts s (some e) (some p))))
      = [P1, P2] := by
    rw [hmatch, hids]
    apply filter_pair_eq h hP1 hP2 hlt
    intro c hc
    simp only [List.mem_cons, List.not_mem_nil, or_false, decide_eq_true_eq]
    constructor
    · rintro (h1 | h1)
      · exact Or.inl (h.idInj hc hP1 h1)
      · exact Or.inr (h.idInj hc hP2 h1)
    · rintro (rfl | rfl)
      · exact Or.inl rfl
      · exact Or.inr rfl
  have hne : findMatchingContacts s (some e) (some p) ≠ [] := by
    rw [hmatch]
    simp
  have heval := handleMatch_eval h hne hprims
  have hdelD : ∀ c ∈ (demotedStore s P1.id (List.map Contact.id [P2])).contacts,
      c.deletedAt = none := by
    intro c hc
    rw [demotedStore_contacts] at hc
    rcases List.mem_map.mp hc with ⟨c0, hc0, rfl⟩
    rw [(demoteF_fields _ _ c0).2.2.2]
    exact h.notDeleted c0 hc0
  have hcombo : comboExists
      (P1 :: refreshCluster (demotedStore s P1.id (List.map Contact.id [P2])) P1)
      (some e) (some p) = false := by
    cases hcb : comboExists
        (P1 :: refreshCluster (demotedStore s P1.id (List.map Contact.id [P2])) P1)
        (some e) (some p) with
    | false => rfl
    | true =>
      unfold comboExists at hcb
      rcases List.any_eq_true.mp hcb with ⟨m, hm, hmm⟩
      rw [hte, htp] at hmm
      simp only [Bool.not_true, Bool.false_or, Bool.and_eq_true, beq_iff_eq] at hmm
      rcases hmm with ⟨hme, hmp⟩
      rcases List.mem_cons.mp hm with rfl | hm2
      · exact absurd (hdp m hP1 hmp) hne12
      · have hmD : m ∈ (demotedStore s P1.id (List.map Contact.id [P2])).contacts :=
          ((mem_findByPrimaryId' hdelD).mp hm2).1
        rw [demotedStore_contacts] at hmD
        rcases List.mem_map.mp hmD with ⟨c0, hc0, rfl⟩
        rw [(demoteF_fields _ _ c0).1] at hme
        rw [(demoteF_fields _ _ c0).2.1] at hmp
        exact absurd ((hde c0 hc0 hme).symm.trans (hdp c0 hc0 hmp)) hne12
  have hafter : afterCreate (demotedStore s P1.id (List.map Contact.id [P2])) P1
      (some e) (some p)
      = (createContact (demotedStore s P1.id (List.map Contact.id [P2]))
          (secondaryData (some e) (some p) P1.id)).2 := by
    unfold afterCreate
    rw [hcombo]
    simp
  refine ⟨buildResponse P1 (refreshCluster (afterCreate (demotedStore s P1.id
      (List.map Contact.id [P2])) P1 (some e) (some p)) P1),
    afterCreate (demotedStore s P1.id (List.map Contact.id [P2])) P1 (some e) (some p),
    ?_, rfl, ?_, ?_⟩
  · rw [identify_match hne]
    exact heval
  · have hdf : demoteF P1.id (List.map Contact.id [P2]) P2
        = { P2 with linkPrecedence := LinkPrecedence.secondary, linkedId := some P1.id } := by
      simp [demoteF]
    have hmm := List.mem_map_of_mem (demoteF P1.id (List.map Contact.id [P2])) hP2
    rw [hdf] at hmm
    rw [hafter, createContact_contacts, demotedStore_contacts]
    exact List.mem_append_left _ hmm
  · intro c hc hcl
    have hcne : c.id ≠ P2.id := by
      intro habs
      have hcP2 : c = P2 := h.idInj hc hP2 habs
      rw [hcP2, h.primNoLink P2 hP2 hp2] at hcl
      exact absurd hcl (by simp)
    have hdf : demoteF P1.id (List.map Contact.id [P2]) c
        = { c with linkedId := some P1.id } := by
      simp [demoteF, hcne, hcl]
    have hmemD : { c with linkedId := some P1.id }
        ∈ (demotedStore s P1.id (List.map Contact.id [P2])).contacts := by
      rw [demotedStore_contacts]
      have hmm := List.mem_map_of_mem (demoteF P1.id (List.map Contact.id [P2])) hc
      rwa [hdf] at hmm
    rw [hafter, createContact_contacts]
    exact List.mem_append_left _ hmemD

theorem claim_C2_witness :
    ∃ r s2, identify exMerge (some "a@x.com") (some "222") = some (r, s2) ∧
      r.primaryContactId = exQ1.id ∧
      { exQ2 with linkPrecedence := LinkPrecedence.secondary, linkedId := some exQ1.id }
        ∈ s2.contacts ∧
      ∀ c ∈ exMerge.contacts, c.linkedId = some exQ2.id →
        { c with linkedId := some exQ1.id } ∈ s2.contacts :=
  claim_C2 (by decide) (by decide) (by decide) (by decide) (by decide) (by decide)
    (by decide) (by decide) (by decide) (by decide) (by decide) (by decide)

/-- C10: a whitespace-only email with no phone slips past the boundary
validation — JS truthiness finds it non-empty — then trimming and the
`|| null` coercion turn it into null, the repository matches nothing, and
the call creates a primary contact whose email and phoneNumber are both
null. -/

theorem claim_C10 :
    truthy (some "   ") = true ∧
    orNull (normalizeEmail (some "   ")) = none ∧
    findMatchingContacts exEmpty none none = [] ∧
    controllerIdentify exEmpty (some "   ") none
      = (ControllerResult.ok ⟨1, [], [], []⟩,
        ⟨[⟨1, none, none, none, LinkPrecedence.primary, 0, none⟩], 2, 1⟩) := by
  decide

end BiteSpeed
